import Mathlib

/-!
Verification development for the openpi parquet-metadata repair scripts
(`scripts/fix_parquet_hf_metadata.py`, `scripts/convert_parquet_hf_list_to_sequence.py`,
`scripts/normalize_parquet_hf_schema_meta.py`).

The Python scripts manipulate JSON metadata blobs stored under the key
`huggingface` in two metadata slots of a parquet file (file-level and
schema-level), rewrite feature entries tagged `_type: "List"` to
`_type: "Sequence"`, and write the result back (in place via a temporary
file plus rename, or mirrored into an output tree).

Modelling conventions:
 - JSON values are the inductive `JSON` below; Python `dict`s become
   association lists preserving insertion order (`getKey` = `d.get(k)`,
   `setKey` = `d[k] = v`, which replaces the value of the first matching
   key in place or appends a fresh key at the end, exactly like a Python
   dict preserves insertion position on reassignment).
 - metadata byte strings are modelled as decoded UTF-8 text (`String`);
   a UTF-8 decode failure of a blob is subsumed under JSON-parse failure,
   which is how the scripts treat it (one `except Exception` catches both).
 - effectful file writes are modelled as pure functions on an explicit
   file-system state `FS`, with boolean failure-injection parameters for
   the fallible steps (`pq.write_table`, `os.replace`).
-/

/-- JSON values, as produced by Python `json.loads`: objects are
insertion-ordered association lists (Python dicts preserve insertion
order), numbers are modelled as integers (the only kind appearing in the
metadata handled by these scripts). -/
inductive JSON where
  | null : JSON
  | bool (b : Bool) : JSON
  | num (n : Int) : JSON
  | str (s : String) : JSON
  | arr (items : List JSON) : JSON
  | obj (fields : List (String × JSON)) : JSON

/-- Python `d.get(k)` on an insertion-ordered dict: value of the first
matching key, if any. -/
def getKey {α β : Type} [DecidableEq α] (l : List (α × β)) (k : α) : Option β :=
  match l with
  | [] => none
  | (k', v) :: t => if k' = k then some v else getKey t k

/-- Python `d[k] = v` on an insertion-ordered dict: replace the value of
the first matching key keeping its position, or append the key at the
end when absent. -/
def setKey {α β : Type} [DecidableEq α] (l : List (α × β)) (k : α) (v : β) : List (α × β) :=
  match l with
  | [] => [(k, v)]
  | (k', v') :: t => if k' = k then (k, v) :: t else (k', v') :: setKey t k v

/-- Python truthiness of a JSON value (`bool(x)` for the values
`json.loads` can return): `None`, `False`, `0`, `""`, `[]` and `{}` are
falsy, everything else truthy. -/
def JSON.truthy : JSON → Bool
  | .null => false
  | .bool b => b
  | .num n => n != 0
  | .str s => s != ""
  | .arr items => !items.isEmpty
  | .obj fields => !fields.isEmpty

/-- Python truthiness of an optional byte string (`if raw:`): `None` and
the empty byte string are falsy. -/
def optBytesTruthy : Option String → Bool
  | none => false
  | some s => s != ""

/-- Escape of one character inside a JSON string literal, following
Python `json.dumps(..., ensure_ascii=False)`: the two-character escapes
for quote, backslash and the usual control characters, `\uXXXX` for the
remaining control characters, and every other character (ASCII or not)
emitted verbatim. -/
def encodeChar (c : Char) : String :=
  if c = '"' then "\\\""
  else if c = '\\' then "\\\\"
  else if c = '\n' then "\\n"
  else if c = '\r' then "\\r"
  else if c = '\t' then "\\t"
  else if c = '\x08' then "\\b"
  else if c = '\x0c' then "\\f"
  else if c.val < 0x20 then
    let hexDigit : Nat → String := fun d =>
      String.singleton (if d < 10 then Char.ofNat (48 + d) else Char.ofNat (87 + d))
    "\\u00" ++ hexDigit ((c.val.toNat / 16) % 16) ++ hexDigit (c.val.toNat % 16)
  else String.singleton c

/-- JSON encoding of a string, per Python `json.dumps` with
`ensure_ascii=False`. -/
def encodeString (s : String) : String :=
  "\"" ++ String.join (s.data.map encodeChar) ++ "\""

mutual

/-- Python `json.dumps(v, ensure_ascii=False)` with the default
separators `(", ", ": ")`: note the single space after each item comma
and each key colon, and no indentation or newlines. -/
def json_dumps : JSON → String
  | .null => "null"
  | .bool true => "true"
  | .bool false => "false"
  | .num n => toString n
  | .str s => encodeString s
  | .arr items => "[" ++ dumpsItems items ++ "]"
  | .obj fields => "\x7b" ++ dumpsFields fields ++ "\x7d"

/-- Comma-separated rendering of JSON array items (helper of
`json_dumps`). -/
def dumpsItems : List JSON → String
  | [] => ""
  | [v] => json_dumps v
  | v :: rest => json_dumps v ++ ", " ++ dumpsItems rest

/-- Comma-separated rendering of JSON object entries (helper of
`json_dumps`). -/
def dumpsFields : List (String × JSON) → String
  | [] => ""
  | [(k, v)] => encodeString k ++ ": " ++ json_dumps v
  | (k, v) :: rest => encodeString k ++ ": " ++ json_dumps v ++ ", " ++ dumpsFields rest

end

/-- JSON insignificant whitespace characters. -/
def isJsonWs (c : Char) : Bool :=
  c = ' ' || c = '\t' || c = '\n' || c = '\r'

/-- Drop leading JSON whitespace. -/
def skipWs (cs : List Char) : List Char :=
  cs.dropWhile isJsonWs

/-- Modelled from the spec: JSON string-literal parsing, part of the
"parse as JSON" step (Python standard-library `json.loads`, external to
the repository). Consumes characters after an opening quote up to the
closing quote, handling the standard escapes; returns the decoded string
and the remaining input. -/
def parseStrBody (acc : List Char) : List Char → Option (String × List Char)
  | [] => none
  | '"' :: rest => some (String.mk acc, rest)
  | '\\' :: esc => match esc with
    | '"' :: rest => parseStrBody (acc ++ ['"']) rest
    | '\\' :: rest => parseStrBody (acc ++ ['\\']) rest
    | '/' :: rest => parseStrBody (acc ++ ['/']) rest
    | 'n' :: rest => parseStrBody (acc ++ ['\n']) rest
    | 't' :: rest => parseStrBody (acc ++ ['\t']) rest
    | 'r' :: rest => parseStrBody (acc ++ ['\r']) rest
    | 'b' :: rest => parseStrBody (acc ++ ['\x08']) rest
    | 'f' :: rest => parseStrBody (acc ++ ['\x0c']) rest
    | 'u' :: h1 :: h2 :: h3 :: h4 :: rest =>
      let hexVal : Char → Option Nat := fun c =>
        if '0' ≤ c ∧ c ≤ '9' then some (c.toNat - 48)
        else if 'a' ≤ c ∧ c ≤ 'f' then some (c.toNat - 87)
        else if 'A' ≤ c ∧ c ≤ 'F' then some (c.toNat - 55)
        else none
      match hexVal h1, hexVal h2, hexVal h3, hexVal h4 with
      | some a, some b, some c, some d =>
        parseStrBody (acc ++ [Char.ofNat (((a * 16 + b) * 16 + c) * 16 + d)]) rest
      | _, _, _, _ => none
    | _ => none
  | c :: rest => parseStrBody (acc ++ [c]) rest

/-- Modelled from the spec: JSON number parsing restricted to integers,
part of the "parse as JSON" step (Python `json.loads`, external to the
repository); the metadata these scripts handle carries only integer
numbers. -/
def parseNum (cs : List Char) : Option (JSON × List Char) :=
  let (neg, cs') := match cs with
    | '-' :: rest => (true, rest)
    | _ => (false, cs)
  let digits := cs'.takeWhile Char.isDigit
  let rest := cs'.dropWhile Char.isDigit
  if digits.isEmpty then none
  else
    let n : Nat := digits.foldl (fun a c => a * 10 + (c.toNat - 48)) 0
    some (.num (if neg then -(n : Int) else (n : Int)), rest)

mutual

/-- Modelled from the spec: recursive-descent parsing of one JSON value
("decode as UTF-8 text and parse as JSON"; Python `json.loads`, external
to the repository). The fuel argument bounds recursion; the top-level
wrapper `json_loads` supplies enough fuel for any input of its length. -/
def parseVal : Nat → List Char → Option (JSON × List Char)
  | 0, _ => none
  | fuel + 1, cs =>
    match skipWs cs with
    | [] => none
    | c :: rest =>
      if c = 'n' then
        match rest with
        | 'u' :: 'l' :: 'l' :: r => some (.null, r)
        | _ => none
      else if c = 't' then
        match rest with
        | 'r' :: 'u' :: 'e' :: r => some (.bool true, r)
        | _ => none
      else if c = 'f' then
        match rest with
        | 'a' :: 'l' :: 's' :: 'e' :: r => some (.bool false, r)
        | _ => none
      else if c = '"' then
        match parseStrBody [] rest with
        | some (s, r) => some (.str s, r)
        | none => none
      else if c = '[' then
        match skipWs rest with
        | ']' :: r => some (.arr [], r)
        | cs2 => parseArrItems fuel cs2 []
      else if c = '\x7b' then
        match skipWs rest with
        | '\x7d' :: r => some (.obj [], r)
        | cs2 => parseObjItems fuel cs2 []
      else if c = '-' || c.isDigit then parseNum (c :: rest)
      else none

/-- Modelled from the spec: parsing of the comma-separated items of a
JSON array (helper of `parseVal`). -/
def parseArrItems : Nat → List Char → List JSON → Option (JSON × List Char)
  | 0, _, _ => none
  | fuel + 1, cs, acc =>
    match parseVal fuel cs with
    | none => none
    | some (v, r) =>
      match skipWs r with
      | ',' :: r2 => parseArrItems fuel r2 (acc ++ [v])
      | ']' :: r2 => some (.arr (acc ++ [v]), r2)
      | _ => none

/-- Modelled from the spec: parsing of the comma-separated `key: value`
entries of a JSON object (helper of `parseVal`). -/
def parseObjItems : Nat → List Char → List (String × JSON) → Option (JSON × List Char)
  | 0, _, _ => none
  | fuel + 1, cs, acc =>
    match cs with
    | '"' :: r =>
      match parseStrBody [] r with
      | none => none
      | some (k, r1) =>
        match skipWs r1 with
        | ':' :: r2 =>
          match parseVal fuel r2 with
          | none => none
          | some (v, r3) =>
            match skipWs r3 with
            | ',' :: r4 => parseObjItems fuel (skipWs r4) (acc ++ [(k, v)])
            | '\x7d' :: r4 => some (.obj (acc ++ [(k, v)]), r4)
            | _ => none
        | _ => none
    | _ => none

end

/-- Modelled from the spec: Python `json.loads` on decoded UTF-8 text
(external standard-library code), returning `none` on any parse failure
— the scripts catch the raised exception and treat the blob as having no
usable JSON. The whole input must be consumed up to trailing
whitespace. -/
def json_loads (s : String) : Option JSON :=
  match parseVal (4 * (s.length + 4)) s.data with
  | some (v, r) => if (skipWs r).isEmpty then some v else none
  | none => none


/-- Condition of the rewrite loop in both scripts' `convert_list_to_sequence`
(`isinstance(spec, dict) and spec.get("_type") == "List"`): the feature
entry is a JSON object whose `_type` field is exactly the string
`"List"`. -/
def isListTagged (v : JSON) : Bool :=
  match v with
  | .obj sp =>
    match getKey sp "_type" with
    | some (.str t) => t == "List"
    | _ => false
  | _ => false

/-- Body of the rewrite loop (`spec["_type"] = "Sequence"`): when the
entry is a `"List"`-tagged object, reassign its `_type` field in place
(Python dict assignment keeps the key's position); otherwise leave the
value untouched. -/
def rewriteSpec (v : JSON) : JSON :=
  if isListTagged v then
    match v with
    | .obj sp => .obj (setKey sp "_type" (.str "Sequence"))
    | v => v
  else v

/-- One iteration of the rewrite loop over `feats.items()`: the (name,
possibly-rewritten spec) entry, plus whether this entry matched the
`"List"` condition (i.e. whether `changes` was incremented and the name
recorded). -/
def rewriteEntry (e : String × JSON) : (String × JSON) × Bool :=
  ((e.1, rewriteSpec e.2), isListTagged e.2)

namespace FixParquetHfMetadata

/-- Return value of `read_hf_metadata` in
`scripts/fix_parquet_hf_metadata.py` (the `HFMeta` dataclass): the tag
of the slot chosen as source (`"file"`, `"schema"` or `"none"`), the
parsed JSON of the chosen blob (`None` on parse failure), and the two
raw blobs. -/
structure HFMeta where
  source : String
  json : Option JSON
  raw_file : Option String
  raw_schema : Option String

/-- Embedding of `read_hf_metadata` (fix_parquet_hf_metadata.py lines
66-91), taking the two metadata key-value maps the pyarrow calls
return: extract the `huggingface` blob of each slot, choose the
file-level blob when truthy (nonempty), else the schema-level blob when
truthy, else report no metadata (with both raw slots dropped to `None`,
as the early return does); then decode/parse the chosen blob, with any
failure giving `json = None`. -/
def read_hf_metadata (fileMeta schemaMeta : List (String × String)) : HFMeta :=
  let raw_file := getKey fileMeta "huggingface"
  let raw_schema := getKey schemaMeta "huggingface"
  let chosen : Option (String × String) :=
    match raw_file with
    | some b =>
      if b != "" then some ("file", b)
      else
        match raw_schema with
        | some b2 => if b2 != "" then some ("schema", b2) else none
        | none => none
    | none =>
      match raw_schema with
      | some b2 => if b2 != "" then some ("schema", b2) else none
      | none => none
  match chosen with
  | none => ⟨"none", none, none, none⟩
  | some (tag, bytes) => ⟨tag, json_loads bytes, raw_file, raw_schema⟩

/-- Return value of `convert_list_to_sequence` in
fix_parquet_hf_metadata.py: the function's early returns (lines 96 and
100) produce a 2-tuple `(hf, 0)` while its final return (line 110)
produces a 3-tuple `(hf, changes, changed_names)`. -/
inductive CLSResult where
  | pair (json : JSON) (changes : Nat) : CLSResult
  | triple (json : JSON) (changes : Nat) (changed_names : List String) : CLSResult

/-- Updated metadata value carried by a `CLSResult`. -/
def CLSResult.json : CLSResult → JSON
  | .pair j _ => j
  | .triple j _ _ => j

/-- Change count carried by a `CLSResult`. -/
def CLSResult.changes : CLSResult → Nat
  | .pair _ n => n
  | .triple _ n _ => n

/-- Embedding of `convert_list_to_sequence` (fix_parquet_hf_metadata.py
lines 94-110). `none` models the `AttributeError` raised by
`info.get("features")` when `hf["info"]` is truthy but not a dict.
Otherwise: a non-dict input or a missing/non-dict `info.features`
returns the 2-tuple early return; the main path rewrites every
`"List"`-tagged entry of the feature map in place (reflected here by
rebuilding the nested objects around the rewritten feature list, which
is what the in-place dict mutation amounts to) and returns the 3-tuple.
The `hf.setdefault("info", {}).setdefault("features", feats)` at line
109 is a no-op on this path (both keys exist) and adds nothing here. -/
def convert_list_to_sequence (hf : JSON) : Option CLSResult :=
  match hf with
  | .obj fs =>
    let info : JSON :=
      match getKey fs "info" with
      | some v => if v.truthy then v else .obj []
      | none => .obj []
    match info with
    | .obj infoFields =>
      match getKey infoFields "features" with
      | some (.obj featFields) =>
        let results := featFields.map rewriteEntry
        let newFeats : List (String × JSON) := results.map (fun r => r.1)
        let changes : Nat := (results.filter (fun r => r.2)).length
        let changed_names : List String := (results.filter (fun r => r.2)).map (fun r => r.1.1)
        let updated : JSON := .obj (setKey fs "info" (.obj (setKey infoFields "features" (.obj newFeats))))
        some (.triple updated changes changed_names)
      | _ => some (.pair (.obj fs) 0)
    | _ => none
  | hf => some (.pair hf 0)

/-- Guard at line 199 of `main`: a file is treated as having no usable
metadata (skipped in place, or copied through in mirror mode) when the
source tag is `"none"` or the parsed JSON is `None`. -/
def hf_meta_usable (m : HFMeta) : Bool :=
  !(m.source == "none" || m.json.isNone)

/-- Serialization used at line 227 of `main` for the needs-write
comparison: `json.dumps(updated_json, ensure_ascii=False).encode("utf-8")`. -/
def target_bytes (updated_json : JSON) : String :=
  json_dumps updated_json

/-- Needs-write decision of `main` (lines 228-230): the schema blob is
compared to the serialized candidate (a `None` blob compares unequal),
the file blob likewise but explicitly `False` when absent, and a write
is needed unless both comparisons succeed. -/
def needs_write (m : HFMeta) (target : String) : Bool :=
  let schema_same : Bool :=
    match m.raw_schema with
    | some b => b == target
    | none => false
  let file_same : Bool :=
    match m.raw_file with
    | some b => b == target
    | none => false
  !(schema_same && file_same)

/-- Per-file outcome of `main` when not mirroring. -/
inductive MainAction where
  | skip : MainAction
  | write : MainAction
  | dryRun : MainAction

/-- Action taken by `main` for a parquet file with usable metadata when
`out_root` is `None` (lines 232-249): skip with `[OK] (no change)` when
no write is needed, otherwise write when `--apply` is set and only
report in dry-run mode. -/
def main_inplace_action (needsWrite apply : Bool) : MainAction :=
  if !needsWrite then .skip
  else if apply then .write
  else .dryRun

/-- Schema-metadata update of `write_with_hf_metadata` (lines 116-117):
copy the existing schema key-value map and assign the serialized JSON
under the single key `huggingface`. -/
def updated_schema_metadata (schemaMeta : List (String × String)) (hf_json : JSON) :
    List (String × String) :=
  setKey schemaMeta "huggingface" (json_dumps hf_json)

end FixParquetHfMetadata

namespace ConvertParquetHfListToSequence

/-- Embedding of `load_hf_metadata`
(convert_parquet_hf_list_to_sequence.py lines 37-47), taking the
file-level metadata key-value map: when the `huggingface` blob is falsy
(absent or empty) or fails to decode/parse, the parsed component is
`None`; the metadata map is returned alongside in every case. -/
def load_hf_metadata (fileMeta : List (String × String)) :
    Option JSON × List (String × String) :=
  let hf_raw := getKey fileMeta "huggingface"
  if !optBytesTruthy hf_raw then (none, fileMeta)
  else
    match hf_raw with
    | some b => (json_loads b, fileMeta)
    | none => (none, fileMeta)

/-- Embedding of `convert_list_to_sequence`
(convert_parquet_hf_list_to_sequence.py lines 50-67): same rewrite loop
as the fix script, but every return is the 2-tuple `(hf, changes)`.
`none` models the `AttributeError` raised by `info.get("features")`
when `hf["info"]` is truthy but not a dict. -/
def convert_list_to_sequence (hf : JSON) : Option (JSON × Nat) :=
  match hf with
  | .obj fs =>
    let info : JSON :=
      match getKey fs "info" with
      | some v => if v.truthy then v else .obj []
      | none => .obj []
    match info with
    | .obj infoFields =>
      match getKey infoFields "features" with
      | some (.obj featFields) =>
        let results := featFields.map rewriteEntry
        let newFeats : List (String × JSON) := results.map (fun r => r.1)
        let changes : Nat := (results.filter (fun r => r.2)).length
        some (.obj (setKey fs "info" (.obj (setKey infoFields "features" (.obj newFeats)))), changes)
      | _ => some (.obj fs, 0)
    | _ => none
  | hf => some (hf, 0)

/-- New metadata map built by `main` before writing (lines 167-168):
a copy of the file-level metadata map with the serialized updated JSON
assigned under `huggingface`. -/
def new_meta (fileMeta : List (String × String)) (updated_hf : JSON) :
    List (String × String) :=
  setKey fileMeta "huggingface" (json_dumps updated_hf)

/-- Schema-metadata merge of `rewrite_parquet_with_metadata` (lines
74-77) and of the mirror-mode write in `main` (lines 176-177):
`existing = dict(schema.metadata); existing.update(new_metadata)` —
every key of `new_metadata` is assigned into the schema map in
iteration order, overwriting schema keys that collide. -/
def merged_schema_metadata (schemaMeta new_metadata : List (String × String)) :
    List (String × String) :=
  new_metadata.foldl (fun acc e => setKey acc e.1 e.2) schemaMeta

end ConvertParquetHfListToSequence

namespace NormalizeParquetHfSchemaMeta

/-- Decision logic of `normalize_file`
(normalize_parquet_hf_schema_meta.py lines 29-57), over the two
optional `huggingface` blobs: when both are falsy report no metadata;
otherwise take the file-level blob when truthy else the schema-level
one (`source = hf_file or hf_schema`; the fallback is necessarily a
truthy value at this point, so the `getD` default is unreachable);
report a parse failure as `invalid hf json`; report `schema up-to-date`
when the schema blob equals the chosen source (an absent schema blob
compares unequal); otherwise an update is due (announced only, in
dry-run mode). -/
def normalize_file_decide (hf_file hf_schema : Option String) (dry_run : Bool) :
    Bool × String :=
  if !optBytesTruthy hf_file && !optBytesTruthy hf_schema then (false, "no hf metadata")
  else
    let source : String :=
      match hf_file with
      | some s => if s != "" then s else hf_schema.getD ""
      | none => hf_schema.getD ""
    match json_loads source with
    | none => (false, "invalid hf json")
    | some _src_json =>
      let schema_matches : Bool :=
        match hf_schema with
        | some b => b == source
        | none => false
      if schema_matches then (false, "schema up-to-date")
      else if dry_run then (true, "would update schema hf metadata")
      else (true, "updated schema hf metadata")

end NormalizeParquetHfSchemaMeta

/-- Paths of the abstract file system, as lists of components. -/
abbrev FilePath' := List String

/-- Contents a file of the abstract file system can hold: `data n` is an
arbitrary complete table file (distinct `n` meaning distinct bytes),
`tempEmpty` a freshly created empty temporary file, and `truncated` the
partially-written leftover of a `pq.write_table` call that raised
midway. -/
inductive FileContent where
  | data (n : Nat) : FileContent
  | tempEmpty : FileContent
  | truncated : FileContent

/-- Abstract file-system state: an association of paths to contents. -/
abbrev FS := List (FilePath' × FileContent)

/-- Content at a path, if the file exists. -/
def fsGet (fs : FS) (p : FilePath') : Option FileContent :=
  getKey fs p

/-- Create or overwrite the file at a path. -/
def fsSet (fs : FS) (p : FilePath') (c : FileContent) : FS :=
  setKey fs p c

/-- Remove the file at a path (`Path.unlink(missing_ok=True)` and the
removal half of `os.replace`). -/
def fsErase (fs : FS) (p : FilePath') : FS :=
  match fs with
  | [] => []
  | e :: t => if e.1 = p then fsErase t p else e :: fsErase t p

/-- Failure-injection points of a table write-back: `pq.write_table`
and `os.replace` are the fallible steps. -/
structure WriteFailure where
  writeOk : Bool
  renameOk : Bool

namespace FixParquetHfMetadata

/-- Embedding of the file-system effect of `write_with_hf_metadata`
(fix_parquet_hf_metadata.py lines 113-134). In-place mode (no
destination, or destination equal to the source): create a fresh
temporary file named `tmpName` in the source's directory
(`tempfile.NamedTemporaryFile(dir=str(src.parent), delete=False)`),
write the new table to it, and `os.replace` it over the source; if
either step raises, unlink the temporary file and re-raise (the failed
write leaves a truncated temporary, which the unlink removes). Mirror
mode (a distinct destination): write the new table directly to the
destination (its parent directory is created first, which does not
touch the file map). Returns the new file system and whether the call
returned normally. -/
def write_with_hf_metadata (fs : FS) (src : FilePath') (dest : Option FilePath')
    (newContent : FileContent) (tmpName : String) (fail : WriteFailure) : FS × Bool :=
  let tmpPath : FilePath' := src.dropLast ++ [tmpName]
  let inPlace : FS × Bool :=
    let fs1 := fsSet fs tmpPath .tempEmpty
    if !fail.writeOk then
      (fsErase (fsSet fs1 tmpPath .truncated) tmpPath, false)
    else if !fail.renameOk then
      (fsErase (fsSet fs1 tmpPath newContent) tmpPath, false)
    else
      (fsSet (fsErase (fsSet fs1 tmpPath newContent) tmpPath) src newContent, true)
  match dest with
  | none => inPlace
  | some d =>
    if d = src then inPlace
    else if fail.writeOk then (fsSet fs d newContent, true)
    else (fsSet fs d .truncated, false)

end FixParquetHfMetadata

namespace ConvertParquetHfListToSequence

/-- Embedding of the file-system effect of
`rewrite_parquet_with_metadata`
(convert_parquet_hf_list_to_sequence.py lines 78-90), which is always
in place: create a fresh temporary file in the source's directory,
write the new table to it, `os.replace` it over the source; on failure
of either step, unlink the temporary and re-raise. -/
def rewrite_parquet_with_metadata (fs : FS) (src : FilePath')
    (newContent : FileContent) (tmpName : String) (fail : WriteFailure) : FS × Bool :=
  let tmpPath : FilePath' := src.dropLast ++ [tmpName]
  let fs1 := fsSet fs tmpPath .tempEmpty
  if !fail.writeOk then
    (fsErase (fsSet fs1 tmpPath .truncated) tmpPath, false)
  else if !fail.renameOk then
    (fsErase (fsSet fs1 tmpPath newContent) tmpPath, false)
  else
    (fsSet (fsErase (fsSet fs1 tmpPath newContent) tmpPath) src newContent, true)

end ConvertParquetHfListToSequence

namespace NormalizeParquetHfSchemaMeta

/-- Embedding of the file-system effect of the apply branch of
`normalize_file` (normalize_parquet_hf_schema_meta.py lines 59-65):
`pq.write_table(new_table, str(path))` overwrites the original path
directly — no temporary file and no rename — so a write that raises
midway leaves the original truncated. -/
def normalize_file_write (fs : FS) (path : FilePath') (newContent : FileContent)
    (writeOk : Bool) : FS × Bool :=
  if writeOk then (fsSet fs path newContent, true)
  else (fsSet fs path .truncated, false)

end NormalizeParquetHfSchemaMeta

/-- File-system operations a processing run can perform, used to state
which paths a mirror-mode run touches. -/
inductive FileOp where
  | mkdirOp (p : FilePath') : FileOp
  | copyOp (srcP dstP : FilePath') : FileOp
  | writeOp (p : FilePath') : FileOp
  | renameOp (fromP toP : FilePath') : FileOp

/-- Paths an operation creates, modifies or deletes (the source of a
copy is only read). -/
def FileOp.targets : FileOp → List FilePath'
  | .mkdirOp p => [p]
  | .copyOp _ d => [d]
  | .writeOp p => [p]
  | .renameOp a b => [a, b]

/-- One directory or file yielded by the tree walk (`iter_all_paths`):
its path relative to the root, and for files whether the suffix is
`.parquet` together with the two metadata maps the readers would
extract. -/
inductive FSEntry where
  | dir (rel : FilePath') : FSEntry
  | file (rel : FilePath') (isParquet : Bool)
      (fileMeta schemaMeta : List (String × String)) : FSEntry

namespace FixParquetHfMetadata

/-- Operations `write_with_hf_metadata` performs on a successful call
(fix_parquet_hf_metadata.py lines 113-134): in-place mode writes the
temporary file and renames it over the source; mirror mode creates the
destination's parent directory and writes the destination. -/
def write_with_hf_metadata_ops (src : FilePath') (dest : Option FilePath')
    (tmpName : String) : List FileOp :=
  let tmpPath : FilePath' := src.dropLast ++ [tmpName]
  match dest with
  | none => [.writeOp tmpPath, .renameOp tmpPath src]
  | some d =>
    if d = src then [.writeOp tmpPath, .renameOp tmpPath src]
    else [.mkdirOp d.dropLast, .writeOp d]

/-- File-system operations the loop body of `main`
(fix_parquet_hf_metadata.py lines 171-249) performs for one walked
entry when mirroring with `--apply` (an `out_root` is given, `apply`
is true, no `--limit`, default `--prefer auto`): directories are
recreated under the output root; non-parquet files and parquet files
without usable metadata are copied through; parquet files with usable
metadata are rewritten to the mirrored destination (mirroring makes the
no-write skip at line 232 unreachable). A `convert_list_to_sequence`
crash aborts the run before any file operation for that entry. -/
def main_entry_ops (root out_root : FilePath') (tmpName : String) :
    FSEntry → List FileOp
  | .dir rel => [.mkdirOp (out_root ++ rel)]
  | .file rel isParquet fileMeta schemaMeta =>
    if !isParquet then
      [.mkdirOp (out_root ++ rel).dropLast, .copyOp (root ++ rel) (out_root ++ rel)]
    else
      let m := read_hf_metadata fileMeta schemaMeta
      if !hf_meta_usable m then
        [.mkdirOp (out_root ++ rel).dropLast, .copyOp (root ++ rel) (out_root ++ rel)]
      else
        match m.json with
        | none => []
        | some chosen =>
          match convert_list_to_sequence chosen with
          | none => []
          | some _res => write_with_hf_metadata_ops (root ++ rel) (some (out_root ++ rel)) tmpName

/-- Operations of a whole mirror-mode `--apply` run of the fix script:
the per-entry operations over the walked entries, in order. -/
def main_mirror_ops (root out_root : FilePath') (tmpName : String)
    (entries : List FSEntry) : List FileOp :=
  entries.flatMap (main_entry_ops root out_root tmpName)

end FixParquetHfMetadata

namespace ConvertParquetHfListToSequence

/-- File-system operations the loop body of `main`
(convert_parquet_hf_list_to_sequence.py lines 118-198) performs for one
walked entry when mirroring with `--apply` (an `out_root` is given,
`apply` is true, no `--limit`): directories are recreated under the
output root; non-parquet files, parquet files without usable file-level
metadata and parquet files with zero changes are copied through;
changed parquet files are written directly to the mirrored destination
(lines 170-180). A `convert_list_to_sequence` crash aborts the run
before any file operation for that entry. -/
def main_entry_ops (root out_root : FilePath') : FSEntry → List FileOp
  | .dir rel => [.mkdirOp (out_root ++ rel)]
  | .file rel isParquet fileMeta _schemaMeta =>
    if isParquet then
      match (load_hf_metadata fileMeta).1 with
      | none =>
        [.mkdirOp (out_root ++ rel).dropLast, .copyOp (root ++ rel) (out_root ++ rel)]
      | some hf =>
        match convert_list_to_sequence hf with
        | none => []
        | some (_updated, n) =>
          if n = 0 then
            [.mkdirOp (out_root ++ rel).dropLast, .copyOp (root ++ rel) (out_root ++ rel)]
          else
            [.mkdirOp (out_root ++ rel).dropLast, .writeOp (out_root ++ rel)]
    else
      [.mkdirOp (out_root ++ rel).dropLast, .copyOp (root ++ rel) (out_root ++ rel)]

/-- Operations of a whole mirror-mode `--apply` run of the convert
script: the per-entry operations over the walked entries, in order. -/
def main_mirror_ops (root out_root : FilePath') (entries : List FSEntry) : List FileOp :=
  entries.flatMap (main_entry_ops root out_root)

end ConvertParquetHfListToSequence

/-- Well-formedness of a walked entry: a file has a nonempty relative
path (the walk yields files as `directory/filename`, so a file's
relative path has at least its final component). -/
def FSEntry.wf : FSEntry → Prop
  | .dir _ => True
  | .file rel _ _ _ => rel ≠ []

theorem getKey_setKey_self {α β : Type} [DecidableEq α] (l : List (α × β)) (k : α) (v : β) :
    getKey (setKey l k v) k = some v := by
  induction l with
  | nil => simp [getKey, setKey]
  | cons hd t ih =>
    obtain ⟨k', v'⟩ := hd
    by_cases h : k' = k
    · simp [getKey, setKey, h]
    · simp [getKey, setKey, h, ih]

theorem getKey_setKey_ne {α β : Type} [DecidableEq α] (l : List (α × β)) (k k' : α) (v : β)
    (h : k' ≠ k) : getKey (setKey l k v) k' = getKey l k' := by
  have h' : k ≠ k' := Ne.symm h
  induction l with
  | nil => simp [getKey, setKey, h']
  | cons hd t ih =>
    obtain ⟨k₀, v₀⟩ := hd
    by_cases h₀ : k₀ = k
    · subst h₀
      simp [getKey, setKey, h']
    · simp only [setKey, if_neg h₀, getKey]
      by_cases h₁ : k₀ = k'
      · simp [h₁]
      · simp [h₁, ih]

theorem setKey_of_getKey_eq {α β : Type} [DecidableEq α] (l : List (α × β)) (k : α) (v : β)
    (h : getKey l k = some v) : setKey l k v = l := by
  induction l with
  | nil => simp [getKey] at h
  | cons hd t ih =>
    obtain ⟨k₀, v₀⟩ := hd
    by_cases h₀ : k₀ = k
    · subst h₀
      simp [getKey] at h
      simp [setKey, h]
    · simp [getKey, h₀] at h
      simp [setKey, h₀, ih h]

theorem setKey_map_fst {α β : Type} [DecidableEq α] (l : List (α × β)) (k : α) (v w : β)
    (h : getKey l k = some w) : (setKey l k v).map Prod.fst = l.map Prod.fst := by
  induction l with
  | nil => simp [getKey] at h
  | cons hd t ih =>
    obtain ⟨k₀, v₀⟩ := hd
    by_cases h₀ : k₀ = k
    · subst h₀
      simp [setKey]
    · simp [getKey, h₀] at h
      simp [setKey, h₀, ih h]

theorem setKey_ne_nil {α β : Type} [DecidableEq α] (l : List (α × β)) (k : α) (v : β) :
    setKey l k v ≠ [] := by
  cases l with
  | nil => simp [setKey]
  | cons hd t =>
    obtain ⟨k₀, v₀⟩ := hd
    by_cases h₀ : k₀ = k <;> simp [setKey, h₀]

theorem filter_setKey_ne {α β : Type} [DecidableEq α] (l : List (α × β)) (k : α) (v : β) :
    (setKey l k v).filter (fun e => decide (e.1 ≠ k)) = l.filter (fun e => decide (e.1 ≠ k)) := by
  induction l with
  | nil => simp [setKey]
  | cons hd t ih =>
    obtain ⟨k₀, v₀⟩ := hd
    by_cases h₀ : k₀ = k
    · subst h₀
      simp [setKey, List.filter_cons]
    · simp only [setKey, if_neg h₀]
      rw [List.filter_cons, List.filter_cons]
      rw [ih]

theorem getKey_ne_nil {α β : Type} [DecidableEq α] {l : List (α × β)} {k : α} {v : β}
    (h : getKey l k = some v) : l ≠ [] := by
  intro hl
  subst hl
  simp [getKey] at h

theorem isListTagged_rewriteSpec (v : JSON) : isListTagged (rewriteSpec v) = false := by
  by_cases h : isListTagged v = true
  · cases v with
    | obj sp =>
      simp only [rewriteSpec, h, if_true]
      simp [isListTagged, getKey_setKey_self]
    | null => simp [isListTagged] at h
    | bool b => simp [isListTagged] at h
    | num n => simp [isListTagged] at h
    | str s => simp [isListTagged] at h
    | arr l => simp [isListTagged] at h
  · simp only [Bool.not_eq_true] at h
    simp [rewriteSpec, h]

theorem rewriteSpec_of_not_tagged {v : JSON} (h : isListTagged v = false) :
    rewriteSpec v = v := by
  simp [rewriteSpec, h]

theorem fix_cls_compute (fs infoFields featFields : List (String × JSON))
    (hinfo : getKey fs "info" = some (.obj infoFields))
    (hfeat : getKey infoFields "features" = some (.obj featFields)) :
    FixParquetHfMetadata.convert_list_to_sequence (.obj fs) =
      some (.triple
        (.obj (setKey fs "info"
          (.obj (setKey infoFields "features"
            (.obj (featFields.map (fun e => (e.1, rewriteSpec e.2))))))))
        ((featFields.filter (fun e => isListTagged e.2)).length)
        ((featFields.filter (fun e => isListTagged e.2)).map (fun e => e.1))) := by
  have hne : infoFields ≠ [] := getKey_ne_nil hfeat
  have htr : (JSON.obj infoFields).truthy = true := by
    cases infoFields with
    | nil => exact absurd rfl hne
    | cons a t => simp [JSON.truthy]
  have e1 : (featFields.map rewriteEntry).map (fun r => r.1)
      = featFields.map (fun e => (e.1, rewriteSpec e.2)) := by
    rw [List.map_map]
    exact List.map_congr_left (fun a _ => rfl)
  have e2 : (featFields.map rewriteEntry).filter (fun r => r.2)
      = (featFields.filter (fun e => isListTagged e.2)).map rewriteEntry := by
    rw [List.filter_map]
    rfl
  simp only [FixParquetHfMetadata.convert_list_to_sequence, hinfo, htr, if_true, hfeat,
    e1, e2, List.length_map, List.map_map]
  exact congrArg _ (congrArg _ (List.map_congr_left (fun a _ => rfl)))

/-- C1: for every parsed metadata JSON object with an `info.features`
object, `convert_list_to_sequence` returns the full triple whose change
count is the number of feature entries that are objects with
`_type = "List"` and whose name list is their names in order; in the
updated document every key other than `info` is unchanged, inside
`info` every key other than `features` is unchanged, the feature map
keeps its keys in order, each `"List"`-tagged entry becomes the same
object with only its `_type` field now `"Sequence"` (all other fields,
including nested `feature`/`length` sub-objects, are the identical
values), and every other entry is returned unmodified. -/
theorem fix_rewrite_changes_exactly_list_entries
    (fs infoFields featFields : List (String × JSON))
    (hinfo : getKey fs "info" = some (.obj infoFields))
    (hfeat : getKey infoFields "features" = some (.obj featFields)) :
    ∃ fs' infoFields' featFields' : List (String × JSON),
      FixParquetHfMetadata.convert_list_to_sequence (.obj fs)
        = some (.triple (.obj fs')
            ((featFields.filter (fun e => isListTagged e.2)).length)
            ((featFields.filter (fun e => isListTagged e.2)).map (fun e => e.1))) ∧
      (∀ k, k ≠ "info" → getKey fs' k = getKey fs k) ∧
      fs'.map Prod.fst = fs.map Prod.fst ∧
      getKey fs' "info" = some (.obj infoFields') ∧
      (∀ k, k ≠ "features" → getKey infoFields' k = getKey infoFields k) ∧
      infoFields'.map Prod.fst = infoFields.map Prod.fst ∧
      getKey infoFields' "features" = some (.obj featFields') ∧
      List.Forall₂ (fun old new : String × JSON =>
          new.1 = old.1 ∧
          (isListTagged old.2 = true →
            ∃ sp sp' : List (String × JSON), old.2 = .obj sp ∧ new.2 = .obj sp' ∧
              getKey sp' "_type" = some (.str "Sequence") ∧
              sp'.map Prod.fst = sp.map Prod.fst ∧
              (∀ k, k ≠ "_type" → getKey sp' k = getKey sp k) ∧
              sp'.filter (fun e => decide (e.1 ≠ "_type"))
                = sp.filter (fun e => decide (e.1 ≠ "_type"))) ∧
          (isListTagged old.2 = false → new.2 = old.2))
        featFields featFields' := by
  refine ⟨setKey fs "info" (.obj (setKey infoFields "features"
      (.obj (featFields.map (fun e => (e.1, rewriteSpec e.2)))))),
    setKey infoFields "features" (.obj (featFields.map (fun e => (e.1, rewriteSpec e.2)))),
    featFields.map (fun e => (e.1, rewriteSpec e.2)),
    fix_cls_compute fs infoFields featFields hinfo hfeat,
    fun k hk => getKey_setKey_ne fs "info" k _ hk,
    setKey_map_fst fs "info" _ _ hinfo,
    getKey_setKey_self fs "info" _,
    fun k hk => getKey_setKey_ne infoFields "features" k _ hk,
    setKey_map_fst infoFields "features" _ _ hfeat,
    getKey_setKey_self infoFields "features" _,
    ?_⟩
  rw [List.forall₂_map_right_iff]
  rw [List.forall₂_same]
  intro e _
  refine ⟨rfl, ?_, ?_⟩
  · intro htag
    cases hv : e.2 with
    | obj sp =>
      have hty : getKey sp "_type" = some (.str "List") := by
        rw [hv] at htag
        simp only [isListTagged] at htag
        cases hg : getKey sp "_type" with
        | none => rw [hg] at htag; simp at htag
        | some w =>
          rw [hg] at htag
          cases w with
          | str t =>
            have : t = "List" := by simpa using htag
            rw [this]
          | null => simp at htag
          | bool b => simp at htag
          | num n => simp at htag
          | arr l => simp at htag
          | obj l => simp at htag
      refine ⟨sp, setKey sp "_type" (.str "Sequence"), rfl, ?_, ?_, ?_, ?_, ?_⟩
      · simp [rewriteSpec, isListTagged, hty]
      · exact getKey_setKey_self sp "_type" _
      · exact setKey_map_fst sp "_type" _ _ hty
      · exact fun k hk => getKey_setKey_ne sp "_type" k _ hk
      · exact filter_setKey_ne sp "_type" _
    | null => rw [hv] at htag; simp [isListTagged] at htag
    | bool b => rw [hv] at htag; simp [isListTagged] at htag
    | num n => rw [hv] at htag; simp [isListTagged] at htag
    | str s => rw [hv] at htag; simp [isListTagged] at htag
    | arr l => rw [hv] at htag; simp [isListTagged] at htag
  · intro htag
    show rewriteSpec e.2 = e.2
    exact rewriteSpec_of_not_tagged htag

/-- Witness for C1: the theorem applied to the concrete document
`{"info": {"features": {"a": {"_type": "List"}}}}`. -/
theorem fix_rewrite_changes_exactly_list_entries_witness :
    getKey [("info", JSON.obj [("features", JSON.obj [("a", JSON.obj [("_type", JSON.str "List")])])])] "info"
      = some (.obj [("features", JSON.obj [("a", JSON.obj [("_type", JSON.str "List")])])]) ∧
    getKey [("features", JSON.obj [("a", JSON.obj [("_type", JSON.str "List")])])] "features"
      = some (.obj [("a", JSON.obj [("_type", JSON.str "List")])]) ∧
    ∃ fs' infoFields' featFields' : List (String × JSON),
      FixParquetHfMetadata.convert_list_to_sequence
          (.obj [("info", JSON.obj [("features", JSON.obj [("a", JSON.obj [("_type", JSON.str "List")])])])])
        = some (.triple (.obj fs')
            (([("a", JSON.obj [("_type", JSON.str "List")])].filter
              (fun e => isListTagged e.2)).length)
            (([("a", JSON.obj [("_type", JSON.str "List")])].filter
              (fun e => isListTagged e.2)).map (fun e => e.1))) ∧
      (∀ k, k ≠ "info" →
        getKey fs' k
          = getKey [("info", JSON.obj [("features", JSON.obj [("a", JSON.obj [("_type", JSON.str "List")])])])] k) ∧
      fs'.map Prod.fst
        = [("info", JSON.obj [("features", JSON.obj [("a", JSON.obj [("_type", JSON.str "List")])])])].map Prod.fst ∧
      getKey fs' "info" = some (.obj infoFields') ∧
      (∀ k, k ≠ "features" →
        getKey infoFields' k
          = getKey [("features", JSON.obj [("a", JSON.obj [("_type", JSON.str "List")])])] k) ∧
      infoFields'.map Prod.fst
        = [("features", JSON.obj [("a", JSON.obj [("_type", JSON.str "List")])])].map Prod.fst ∧
      getKey infoFields' "features" = some (.obj featFields') ∧
      List.Forall₂ (fun old new : String × JSON =>
          new.1 = old.1 ∧
          (isListTagged old.2 = true →
            ∃ sp sp' : List (String × JSON), old.2 = .obj sp ∧ new.2 = .obj sp' ∧
              getKey sp' "_type" = some (.str "Sequence") ∧
              sp'.map Prod.fst = sp.map Prod.fst ∧
              (∀ k, k ≠ "_type" → getKey sp' k = getKey sp k) ∧
              sp'.filter (fun e => decide (e.1 ≠ "_type"))
                = sp.filter (fun e => decide (e.1 ≠ "_type"))) ∧
          (isListTagged old.2 = false → new.2 = old.2))
        [("a", JSON.obj [("_type", JSON.str "List")])] featFields' :=
  ⟨rfl, rfl, fix_rewrite_changes_exactly_list_entries _ _ _ rfl rfl⟩

theorem rewrittenFeats_no_tags (featFields : List (String × JSON)) :
    (featFields.map (fun e => (e.1, rewriteSpec e.2))).filter (fun e => isListTagged e.2) = [] := by
  rw [List.filter_eq_nil_iff]
  intro a ha
  obtain ⟨e, _, he⟩ := List.mem_map.mp ha
  rw [← he]
  simp [isListTagged_rewriteSpec]

theorem rewrittenFeats_id_of_no_tags {featFields : List (String × JSON)}
    (h : ∀ e ∈ featFields, isListTagged e.2 = false) :
    featFields.map (fun e => (e.1, rewriteSpec e.2)) = featFields := by
  have := List.map_congr_left (l := featFields) (f := fun e => (e.1, rewriteSpec e.2)) (g := id)
    (fun e he => by simp [rewriteSpec_of_not_tagged (h e he)])
  simpa using this

theorem conv_cls_compute (fs infoFields featFields : List (String × JSON))
    (hinfo : getKey fs "info" = some (.obj infoFields))
    (hfeat : getKey infoFields "features" = some (.obj featFields)) :
    ConvertParquetHfListToSequence.convert_list_to_sequence (.obj fs) =
      some (.obj (setKey fs "info"
          (.obj (setKey infoFields "features"
            (.obj (featFields.map (fun e => (e.1, rewriteSpec e.2))))))),
        (featFields.filter (fun e => isListTagged e.2)).length) := by
  have hne : infoFields ≠ [] := getKey_ne_nil hfeat
  have htr : (JSON.obj infoFields).truthy = true := by
    cases infoFields with
    | nil => exact absurd rfl hne
    | cons a t => simp [JSON.truthy]
  have e1 : (featFields.map rewriteEntry).map (fun r => r.1)
      = featFields.map (fun e => (e.1, rewriteSpec e.2)) := by
    rw [List.map_map]
    exact List.map_congr_left (fun a _ => rfl)
  have e2 : (featFields.map rewriteEntry).filter (fun r => r.2)
      = (featFields.filter (fun e => isListTagged e.2)).map rewriteEntry := by
    rw [List.filter_map]
    rfl
  simp only [ConvertParquetHfListToSequence.convert_list_to_sequence, hinfo, htr, if_true,
    hfeat, e1, e2, List.length_map]


theorem fix_cls_idem_aux (hf : JSON) (r : FixParquetHfMetadata.CLSResult)
    (h : FixParquetHfMetadata.convert_list_to_sequence hf = some r) :
    (∃ r', FixParquetHfMetadata.convert_list_to_sequence r.json = some r'
        ∧ r'.changes = 0) ∧
    (r.changes = 0 → r.json = hf) := by
  cases hf with
  | obj fs =>
    cases hI : getKey fs "info" with
    | none =>
      have hc : FixParquetHfMetadata.convert_list_to_sequence (.obj fs)
          = some (.pair (.obj fs) 0) := by
        simp [FixParquetHfMetadata.convert_list_to_sequence, hI, getKey]
      rw [hc] at h
      obtain rfl := Option.some.inj h
      exact ⟨⟨.pair (.obj fs) 0, hc, rfl⟩, fun _ => rfl⟩
    | some v =>
      by_cases htr : v.truthy = true
      · cases v with
        | obj infoFields =>
          cases hF : getKey infoFields "features" with
          | none =>
            have hc : FixParquetHfMetadata.convert_list_to_sequence (.obj fs)
                = some (.pair (.obj fs) 0) := by
              simp [FixParquetHfMetadata.convert_list_to_sequence, hI, htr, hF]
            rw [hc] at h
            obtain rfl := Option.some.inj h
            exact ⟨⟨.pair (.obj fs) 0, hc, rfl⟩, fun _ => rfl⟩
          | some w =>
            cases w with
            | obj featFields =>
              have hc := fix_cls_compute fs infoFields featFields hI hF
              rw [hc] at h
              obtain rfl := Option.some.inj h
              constructor
              · refine ⟨_, fix_cls_compute _ _ _
                  (getKey_setKey_self fs "info" _)
                  (getKey_setKey_self infoFields "features" _), ?_⟩
                simp [FixParquetHfMetadata.CLSResult.changes, rewrittenFeats_no_tags]
              · intro h0
                have hnil : featFields.filter (fun e => isListTagged e.2) = [] :=
                  List.length_eq_zero.mp h0
                have hall : ∀ e ∈ featFields, isListTagged e.2 = false := by
                  intro e he
                  have := List.filter_eq_nil_iff.mp hnil e he
                  simpa using this
                show JSON.obj _ = JSON.obj fs
                rw [rewrittenFeats_id_of_no_tags hall,
                  setKey_of_getKey_eq infoFields "features" _ hF,
                  setKey_of_getKey_eq fs "info" _ hI]
            | null =>
              have hc : FixParquetHfMetadata.convert_list_to_sequence (.obj fs)
                  = some (.pair (.obj fs) 0) := by
                simp [FixParquetHfMetadata.convert_list_to_sequence, hI, htr, hF]
              rw [hc] at h
              obtain rfl := Option.some.inj h
              exact ⟨⟨.pair (.obj fs) 0, hc, rfl⟩, fun _ => rfl⟩
            | bool b =>
              have hc : FixParquetHfMetadata.convert_list_to_sequence (.obj fs)
                  = some (.pair (.obj fs) 0) := by
                simp [FixParquetHfMetadata.convert_list_to_sequence, hI, htr, hF]
              rw [hc] at h
              obtain rfl := Option.some.inj h
              exact ⟨⟨.pair (.obj fs) 0, hc, rfl⟩, fun _ => rfl⟩
            | num n =>
              have hc : FixParquetHfMetadata.convert_list_to_sequence (.obj fs)
                  = some (.pair (.obj fs) 0) := by
                simp [FixParquetHfMetadata.convert_list_to_sequence, hI, htr, hF]
              rw [hc] at h
              obtain rfl := Option.some.inj h
              exact ⟨⟨.pair (.obj fs) 0, hc, rfl⟩, fun _ => rfl⟩
            | str s =>
              have hc : FixParquetHfMetadata.convert_list_to_sequence (.obj fs)
                  = some (.pair (.obj fs) 0) := by
                simp [FixParquetHfMetadata.convert_list_to_sequence, hI, htr, hF]
              rw [hc] at h
              obtain rfl := Option.some.inj h
              exact ⟨⟨.pair (.obj fs) 0, hc, rfl⟩, fun _ => rfl⟩
            | arr l =>
              have hc : FixParquetHfMetadata.convert_list_to_sequence (.obj fs)
                  = some (.pair (.obj fs) 0) := by
                simp [FixParquetHfMetadata.convert_list_to_sequence, hI, htr, hF]
              rw [hc] at h
              obtain rfl := Option.some.inj h
              exact ⟨⟨.pair (.obj fs) 0, hc, rfl⟩, fun _ => rfl⟩
        | null =>
          have hc : FixParquetHfMetadata.convert_list_to_sequence (.obj fs) = none := by
            simp [FixParquetHfMetadata.convert_list_to_sequence, hI, htr]
          rw [hc] at h
          exact Option.noConfusion h
        | bool b =>
          have hc : FixParquetHfMetadata.convert_list_to_sequence (.obj fs) = none := by
            simp [FixParquetHfMetadata.convert_list_to_sequence, hI, htr]
          rw [hc] at h
          exact Option.noConfusion h
        | num n =>
          have hc : FixParquetHfMetadata.convert_list_to_sequence (.obj fs) = none := by
            simp [FixParquetHfMetadata.convert_list_to_sequence, hI, htr]
          rw [hc] at h
          exact Option.noConfusion h
        | str s =>
          have hc : FixParquetHfMetadata.convert_list_to_sequence (.obj fs) = none := by
            simp [FixParquetHfMetadata.convert_list_to_sequence, hI, htr]
          rw [hc] at h
          exact Option.noConfusion h
        | arr l =>
          have hc : FixParquetHfMetadata.convert_list_to_sequence (.obj fs) = none := by
            simp [FixParquetHfMetadata.convert_list_to_sequence, hI, htr]
          rw [hc] at h
          exact Option.noConfusion h
      · have htr' : v.truthy = false := by simpa using htr
        have hc : FixParquetHfMetadata.convert_list_to_sequence (.obj fs)
            = some (.pair (.obj fs) 0) := by
          simp [FixParquetHfMetadata.convert_list_to_sequence, hI, htr', getKey]
        rw [hc] at h
        obtain rfl := Option.some.inj h
        exact ⟨⟨.pair (.obj fs) 0, hc, rfl⟩, fun _ => rfl⟩
  | null =>
    simp only [FixParquetHfMetadata.convert_list_to_sequence] at h
    obtain rfl := Option.some.inj h
    exact ⟨⟨_, rfl, rfl⟩, fun _ => rfl⟩
  | bool b =>
    simp only [FixParquetHfMetadata.convert_list_to_sequence] at h
    obtain rfl := Option.some.inj h
    exact ⟨⟨_, rfl, rfl⟩, fun _ => rfl⟩
  | num n =>
    simp only [FixParquetHfMetadata.convert_list_to_sequence] at h
    obtain rfl := Option.some.inj h
    exact ⟨⟨_, rfl, rfl⟩, fun _ => rfl⟩
  | str s =>
    simp only [FixParquetHfMetadata.convert_list_to_sequence] at h
    obtain rfl := Option.some.inj h
    exact ⟨⟨_, rfl, rfl⟩, fun _ => rfl⟩
  | arr l =>
    simp only [FixParquetHfMetadata.convert_list_to_sequence] at h
    obtain rfl := Option.some.inj h
    exact ⟨⟨_, rfl, rfl⟩, fun _ => rfl⟩

theorem conv_cls_idem_aux (hf : JSON) (r : JSON × Nat)
    (h : ConvertParquetHfListToSequence.convert_list_to_sequence hf = some r) :
    (∃ updated', ConvertParquetHfListToSequence.convert_list_to_sequence r.1
        = some (updated', 0)) ∧
    (r.2 = 0 → r.1 = hf) := by
  cases hf with
  | obj fs =>
    cases hI : getKey fs "info" with
    | none =>
      have hc : ConvertParquetHfListToSequence.convert_list_to_sequence (.obj fs)
          = some (.obj fs, 0) := by
        simp [ConvertParquetHfListToSequence.convert_list_to_sequence, hI, getKey]
      rw [hc] at h
      obtain rfl := Option.some.inj h
      exact ⟨⟨.obj fs, hc⟩, fun _ => rfl⟩
    | some v =>
      by_cases htr : v.truthy = true
      · cases v with
        | obj infoFields =>
          cases hF : getKey infoFields "features" with
          | none =>
            have hc : ConvertParquetHfListToSequence.convert_list_to_sequence (.obj fs)
                = some (.obj fs, 0) := by
              simp [ConvertParquetHfListToSequence.convert_list_to_sequence, hI, htr, hF]
            rw [hc] at h
            obtain rfl := Option.some.inj h
            exact ⟨⟨.obj fs, hc⟩, fun _ => rfl⟩
          | some w =>
            cases w with
            | obj featFields =>
              have hc := conv_cls_compute fs infoFields featFields hI hF
              rw [hc] at h
              obtain rfl := Option.some.inj h
              constructor
              · have hsecond := conv_cls_compute
                  (setKey fs "info" (.obj (setKey infoFields "features"
                    (.obj (featFields.map (fun e => (e.1, rewriteSpec e.2)))))))
                  (setKey infoFields "features"
                    (.obj (featFields.map (fun e => (e.1, rewriteSpec e.2)))))
                  (featFields.map (fun e => (e.1, rewriteSpec e.2)))
                  (getKey_setKey_self fs "info" _)
                  (getKey_setKey_self infoFields "features" _)
                have hz : ((featFields.map (fun e => (e.1, rewriteSpec e.2))).filter
                    (fun e => isListTagged e.2)).length = 0 := by
                  rw [rewrittenFeats_no_tags]
                  rfl
                rw [hz] at hsecond
                exact ⟨_, hsecond⟩
              · intro h0
                have hnil : featFields.filter (fun e => isListTagged e.2) = [] :=
                  List.length_eq_zero.mp h0
                have hall : ∀ e ∈ featFields, isListTagged e.2 = false := by
                  intro e he
                  have := List.filter_eq_nil_iff.mp hnil e he
                  simpa using this
                show JSON.obj _ = JSON.obj fs
                rw [rewrittenFeats_id_of_no_tags hall,
                  setKey_of_getKey_eq infoFields "features" _ hF,
                  setKey_of_getKey_eq fs "info" _ hI]
            | null =>
              have hc : ConvertParquetHfListToSequence.convert_list_to_sequence (.obj fs)
                  = some (.obj fs, 0) := by
                simp [ConvertParquetHfListToSequence.convert_list_to_sequence, hI, htr, hF]
              rw [hc] at h
              obtain rfl := Option.some.inj h
              exact ⟨⟨.obj fs, hc⟩, fun _ => rfl⟩
            | bool b =>
              have hc : ConvertParquetHfListToSequence.convert_list_to_sequence (.obj fs)
                  = some (.obj fs, 0) := by
                simp [ConvertParquetHfListToSequence.convert_list_to_sequence, hI, htr, hF]
              rw [hc] at h
              obtain rfl := Option.some.inj h
              exact ⟨⟨.obj fs, hc⟩, fun _ => rfl⟩
            | num n =>
              have hc : ConvertParquetHfListToSequence.convert_list_to_sequence (.obj fs)
                  = some (.obj fs, 0) := by
                simp [ConvertParquetHfListToSequence.convert_list_to_sequence, hI, htr, hF]
              rw [hc] at h
              obtain rfl := Option.some.inj h
              exact ⟨⟨.obj fs, hc⟩, fun _ => rfl⟩
            | str s =>
              have hc : ConvertParquetHfListToSequence.convert_list_to_sequence (.obj fs)
                  = some (.obj fs, 0) := by
                simp [ConvertParquetHfListToSequence.convert_list_to_sequence, hI, htr, hF]
              rw [hc] at h
              obtain rfl := Option.some.inj h
              exact ⟨⟨.obj fs, hc⟩, fun _ => rfl⟩
            | arr l =>
              have hc : ConvertParquetHfListToSequence.convert_list_to_sequence (.obj fs)
                  = some (.obj fs, 0) := by
                simp [ConvertParquetHfListToSequence.convert_list_to_sequence, hI, htr, hF]
              rw [hc] at h
              obtain rfl := Option.some.inj h
              exact ⟨⟨.obj fs, hc⟩, fun _ => rfl⟩
        | null =>
          have hc : ConvertParquetHfListToSequence.convert_list_to_sequence (.obj fs) = none := by
            simp [ConvertParquetHfListToSequence.convert_list_to_sequence, hI, htr]
          rw [hc] at h
          exact Option.noConfusion h
        | bool b =>
          have hc : ConvertParquetHfListToSequence.convert_list_to_sequence (.obj fs) = none := by
            simp [ConvertParquetHfListToSequence.convert_list_to_sequence, hI, htr]
          rw [hc] at h
          exact Option.noConfusion h
        | num n =>
          have hc : ConvertParquetHfListToSequence.convert_list_to_sequence (.obj fs) = none := by
            simp [ConvertParquetHfListToSequence.convert_list_to_sequence, hI, htr]
          rw [hc] at h
          exact Option.noConfusion h
        | str s =>
          have hc : ConvertParquetHfListToSequence.convert_list_to_sequence (.obj fs) = none := by
            simp [ConvertParquetHfListToSequence.convert_list_to_sequence, hI, htr]
          rw [hc] at h
          exact Option.noConfusion h
        | arr l =>
          have hc : ConvertParquetHfListToSequence.convert_list_to_sequence (.obj fs) = none := by
            simp [ConvertParquetHfListToSequence.convert_list_to_sequence, hI, htr]
          rw [hc] at h
          exact Option.noConfusion h
      · have htr' : v.truthy = false := by simpa using htr
        have hc : ConvertParquetHfListToSequence.convert_list_to_sequence (.obj fs)
            = some (.obj fs, 0) := by
          simp [ConvertParquetHfListToSequence.convert_list_to_sequence, hI, htr', getKey]
        rw [hc] at h
        obtain rfl := Option.some.inj h
        exact ⟨⟨.obj fs, hc⟩, fun _ => rfl⟩
  | null =>
    simp only [ConvertParquetHfListToSequence.convert_list_to_sequence] at h
    obtain rfl := Option.some.inj h
    exact ⟨⟨_, rfl⟩, fun _ => rfl⟩
  | bool b =>
    simp only [ConvertParquetHfListToSequence.convert_list_to_sequence] at h
    obtain rfl := Option.some.inj h
    exact ⟨⟨_, rfl⟩, fun _ => rfl⟩
  | num n =>
    simp only [ConvertParquetHfListToSequence.convert_list_to_sequence] at h
    obtain rfl := Option.some.inj h
    exact ⟨⟨_, rfl⟩, fun _ => rfl⟩
  | str s =>
    simp only [ConvertParquetHfListToSequence.convert_list_to_sequence] at h
    obtain rfl := Option.some.inj h
    exact ⟨⟨_, rfl⟩, fun _ => rfl⟩
  | arr l =>
    simp only [ConvertParquetHfListToSequence.convert_list_to_sequence] at h
    obtain rfl := Option.some.inj h
    exact ⟨⟨_, rfl⟩, fun _ => rfl⟩

/-- C5: the rewrite is idempotent — whenever either script's
`convert_list_to_sequence` returns a result, re-applying it to the
returned structure yields change count 0, and a change count of 0
implies the returned structure is structurally equal to the input. -/
theorem rewrite_idempotent_and_zero_changes_identity :
    (∀ (hf : JSON) (r : FixParquetHfMetadata.CLSResult),
      FixParquetHfMetadata.convert_list_to_sequence hf = some r →
        (∃ r', FixParquetHfMetadata.convert_list_to_sequence r.json = some r'
            ∧ r'.changes = 0) ∧
        (r.changes = 0 → r.json = hf)) ∧
    (∀ (hf : JSON) (r : JSON × Nat),
      ConvertParquetHfListToSequence.convert_list_to_sequence hf = some r →
        (∃ updated', ConvertParquetHfListToSequence.convert_list_to_sequence r.1
            = some (updated', 0)) ∧
        (r.2 = 0 → r.1 = hf)) :=
  ⟨fix_cls_idem_aux, conv_cls_idem_aux⟩

/-- Witness for C5: the theorem applied to the concrete document
`{"info": {"features": {"a": {"_type": "List"}}}}` for the fix script
and to the non-object document `3` for the convert script. -/
theorem rewrite_idempotent_and_zero_changes_identity_witness :
    FixParquetHfMetadata.convert_list_to_sequence
        (.obj [("info", JSON.obj [("features", JSON.obj [("a", JSON.obj [("_type", JSON.str "List")])])])])
      = some (.triple
          (.obj [("info", JSON.obj [("features", JSON.obj [("a", JSON.obj [("_type", JSON.str "Sequence")])])])])
          1 ["a"]) ∧
    ((∃ r', FixParquetHfMetadata.convert_list_to_sequence
          (FixParquetHfMetadata.CLSResult.json (.triple
            (.obj [("info", JSON.obj [("features", JSON.obj [("a", JSON.obj [("_type", JSON.str "Sequence")])])])])
            1 ["a"])) = some r' ∧ r'.changes = 0) ∧
      (FixParquetHfMetadata.CLSResult.changes (.triple
          (.obj [("info", JSON.obj [("features", JSON.obj [("a", JSON.obj [("_type", JSON.str "Sequence")])])])])
          1 ["a"]) = 0 →
        FixParquetHfMetadata.CLSResult.json (.triple
          (.obj [("info", JSON.obj [("features", JSON.obj [("a", JSON.obj [("_type", JSON.str "Sequence")])])])])
          1 ["a"])
        = .obj [("info", JSON.obj [("features", JSON.obj [("a", JSON.obj [("_type", JSON.str "List")])])])])) ∧
    ConvertParquetHfListToSequence.convert_list_to_sequence (.num 3) = some (.num 3, 0) ∧
    ((∃ updated', ConvertParquetHfListToSequence.convert_list_to_sequence
        ((JSON.num 3, (0 : Nat)) : JSON × Nat).1 = some (updated', 0)) ∧
      (((JSON.num 3, (0 : Nat)) : JSON × Nat).2 = 0 →
        ((JSON.num 3, (0 : Nat)) : JSON × Nat).1 = .num 3)) :=
  ⟨rfl,
    rewrite_idempotent_and_zero_changes_identity.1 _ _ rfl,
    rfl,
    rewrite_idempotent_and_zero_changes_identity.2 _ _ rfl⟩

/-- C7 (code bug): the fix script's `convert_list_to_sequence` is not a
total function into the full RewriteResult triple. On the document
`{"pi": 3}` — an object with no `info.features` record — and on the
non-object document `[1]` it returns the 2-tuple `(input, 0)` of its
early returns (so the caller's 3-way unpacking at line 224 of `main`
raises a `ValueError`), and on `{"info": "x"}` it raises an
`AttributeError` instead of returning at all. -/
theorem fix_convert_early_return_is_pair_not_triple :
    FixParquetHfMetadata.convert_list_to_sequence (.obj [("pi", JSON.num 3)])
      = some (.pair (.obj [("pi", JSON.num 3)]) 0) ∧
    FixParquetHfMetadata.convert_list_to_sequence (.arr [JSON.num 1])
      = some (.pair (.arr [JSON.num 1]) 0) ∧
    FixParquetHfMetadata.convert_list_to_sequence (.obj [("info", JSON.str "x")]) = none :=
  ⟨rfl, rfl, rfl⟩

/-- C3: with mirroring not in effect, the needs-write decision is false
exactly when the deterministic serialization of the updated JSON is
byte-identical to both the file-level and the schema-level raw blob,
and in that case `main` skips the file (no write is performed), which
is what makes a second run, or a run on an already-consistent file, a
no-op. -/
theorem needs_write_iff_not_identical_to_both :
    ∀ (m : FixParquetHfMetadata.HFMeta) (updated : JSON),
      (FixParquetHfMetadata.needs_write m (FixParquetHfMetadata.target_bytes updated) = false ↔
        (m.raw_file = some (FixParquetHfMetadata.target_bytes updated) ∧
          m.raw_schema = some (FixParquetHfMetadata.target_bytes updated))) ∧
      (∀ apply : Bool,
        m.raw_file = some (FixParquetHfMetadata.target_bytes updated) →
        m.raw_schema = some (FixParquetHfMetadata.target_bytes updated) →
        FixParquetHfMetadata.main_inplace_action
          (FixParquetHfMetadata.needs_write m (FixParquetHfMetadata.target_bytes updated)) apply
          = .skip) := by
  intro m updated
  obtain ⟨src, js, rf, rs⟩ := m
  constructor
  · cases rf <;> cases rs <;> simp [FixParquetHfMetadata.needs_write, and_comm]
  · intro apply h1 h2
    simp only at h1 h2
    have hnw : FixParquetHfMetadata.needs_write ⟨src, js, rf, rs⟩
        (FixParquetHfMetadata.target_bytes updated) = false := by
      simp [FixParquetHfMetadata.needs_write, h1, h2]
    rw [hnw]
    rfl

/-- Witness for C3: the theorem applied to metadata whose two raw blobs
both equal the serialization of the updated document `null`. -/
theorem needs_write_iff_not_identical_to_both_witness :
    (FixParquetHfMetadata.needs_write ⟨"file", some .null, some "null", some "null"⟩
        (FixParquetHfMetadata.target_bytes .null) = false ↔
      ((⟨"file", some .null, some "null", some "null"⟩ : FixParquetHfMetadata.HFMeta).raw_file
          = some (FixParquetHfMetadata.target_bytes .null) ∧
        (⟨"file", some .null, some "null", some "null"⟩ : FixParquetHfMetadata.HFMeta).raw_schema
          = some (FixParquetHfMetadata.target_bytes .null))) ∧
    FixParquetHfMetadata.main_inplace_action
      (FixParquetHfMetadata.needs_write ⟨"file", some .null, some "null", some "null"⟩
        (FixParquetHfMetadata.target_bytes .null)) true = .skip :=
  ⟨(needs_write_iff_not_identical_to_both ⟨"file", some .null, some "null", some "null"⟩ .null).1,
    (needs_write_iff_not_identical_to_both ⟨"file", some .null, some "null", some "null"⟩ .null).2
      true rfl rfl⟩

/-- Counterexample for C4: a file-level blob `"not json"` that fails to
parse together with a schema-level blob that parses fine. The selector
still reports `source = "file"` with `json = None` — it does not treat
the file-level blob as absent and does not select the schema-level JSON
— and `main` then classifies the file as having no usable metadata even
though the schema slot parses. -/
theorem unparseable_file_blob_is_not_treated_as_absent :
    FixParquetHfMetadata.read_hf_metadata [("huggingface", "not json")]
        [("huggingface", "\x7b\"info\": \x7b\"features\": \x7b\"a\": \x7b\"_type\": \"List\"\x7d\x7d\x7d\x7d")]
      = ⟨"file", none, some "not json",
          some "\x7b\"info\": \x7b\"features\": \x7b\"a\": \x7b\"_type\": \"List\"\x7d\x7d\x7d\x7d"⟩ ∧
    json_loads "\x7b\"info\": \x7b\"features\": \x7b\"a\": \x7b\"_type\": \"List\"\x7d\x7d\x7d\x7d"
      = some (.obj [("info", .obj [("features", .obj [("a", .obj [("_type", .str "List")])])])]) ∧
    FixParquetHfMetadata.hf_meta_usable
        (FixParquetHfMetadata.read_hf_metadata [("huggingface", "not json")]
          [("huggingface", "\x7b\"info\": \x7b\"features\": \x7b\"a\": \x7b\"_type\": \"List\"\x7d\x7d\x7d\x7d")])
      = false :=
  ⟨rfl, rfl, rfl⟩

/-- C4 as amended: under the default/auto preference, a nonempty
file-level blob is always selected as the source, even when it fails to
decode or parse; the parse failure of the chosen blob then makes `main`
treat the file as having no usable metadata (skip or copy-through),
regardless of whether the schema-level blob would parse. -/
theorem auto_selects_nonempty_file_blob_even_if_unparseable :
    ∀ (fm sm : List (String × String)) (b : String),
      getKey fm "huggingface" = some b → b ≠ "" → json_loads b = none →
      FixParquetHfMetadata.read_hf_metadata fm sm
        = ⟨"file", none, some b, getKey sm "huggingface"⟩ ∧
      FixParquetHfMetadata.hf_meta_usable (FixParquetHfMetadata.read_hf_metadata fm sm)
        = false := by
  intro fm sm b hg hb hp
  have hbne : (b != "") = true := by simpa using hb
  constructor
  · simp [FixParquetHfMetadata.read_hf_metadata, hg, hbne, hp]
  · simp [FixParquetHfMetadata.read_hf_metadata, hg, hbne, hp,
      FixParquetHfMetadata.hf_meta_usable]

/-- Witness for the amended C4: the theorem applied to a file-level
blob `"oops"` and an empty schema map. -/
theorem auto_selects_nonempty_file_blob_even_if_unparseable_witness :
    getKey [("huggingface", "oops")] "huggingface" = some "oops" ∧
    "oops" ≠ "" ∧
    json_loads "oops" = none ∧
    (FixParquetHfMetadata.read_hf_metadata [("huggingface", "oops")] []
        = ⟨"file", none, some "oops", getKey ([] : List (String × String)) "huggingface"⟩ ∧
      FixParquetHfMetadata.hf_meta_usable
        (FixParquetHfMetadata.read_hf_metadata [("huggingface", "oops")] []) = false) :=
  ⟨rfl, by decide, rfl,
    auto_selects_nonempty_file_blob_even_if_unparseable _ _ _ rfl (by decide) rfl⟩

/-- Counterexample for C6: the convert script's writer merges the whole
file-level metadata map over the schema-level map
(`existing.update(new_metadata)`), so a key `custom_tag` present in the
schema-level map before the rewrite with value `"A"` ends up with the
colliding file-level value `"B"` after the rewrite — not its identical
value. -/
theorem conv_merge_overwrites_colliding_schema_key :
    ConvertParquetHfListToSequence.merged_schema_metadata
        [("custom_tag", "A"), ("huggingface", "old")]
        [("custom_tag", "B"), ("huggingface", "new")]
      = [("custom_tag", "B"), ("huggingface", "new")] ∧
    getKey [("custom_tag", "A"), ("huggingface", "old")] "custom_tag" = some "A" ∧
    getKey (ConvertParquetHfListToSequence.merged_schema_metadata
        [("custom_tag", "A"), ("huggingface", "old")]
        [("custom_tag", "B"), ("huggingface", "new")]) "custom_tag" = some "B" :=
  ⟨rfl, rfl, rfl⟩

/-- C6 as amended: the fix script's writer installs the final blob under
the single key `huggingface` and preserves every other schema-level key
with its identical value; the convert script's writer merges the whole
file-level metadata map over the schema-level map, so a schema-level
key is preserved only when it is not also a key of the merged map —
colliding keys take the file-level value. -/
theorem schema_merge_preserves_noncolliding_keys :
    (∀ (schemaMeta : List (String × String)) (hf_json : JSON) (k : String),
      k ≠ "huggingface" →
      getKey (FixParquetHfMetadata.updated_schema_metadata schemaMeta hf_json) k
        = getKey schemaMeta k) ∧
    (∀ (schemaMeta : List (String × String)) (hf_json : JSON),
      getKey (FixParquetHfMetadata.updated_schema_metadata schemaMeta hf_json) "huggingface"
        = some (json_dumps hf_json)) ∧
    (∀ (schemaMeta new_metadata : List (String × String)) (k : String),
      k ∉ new_metadata.map Prod.fst →
      getKey (ConvertParquetHfListToSequence.merged_schema_metadata schemaMeta new_metadata) k
        = getKey schemaMeta k) := by
  refine ⟨fun schemaMeta hf_json k hk =>
      getKey_setKey_ne schemaMeta "huggingface" k _ hk,
    fun schemaMeta hf_json => getKey_setKey_self schemaMeta "huggingface" _, ?_⟩
  intro schemaMeta new_metadata k hk
  revert hk
  induction new_metadata generalizing schemaMeta with
  | nil => intro hk; rfl
  | cons e t ih =>
    intro hk
    have hk1 : k ≠ e.1 := by
      intro hh
      exact hk (by simp [hh])
    have hk2 : k ∉ t.map Prod.fst := by
      intro hh
      exact hk (by simp [hh])
    show getKey (ConvertParquetHfListToSequence.merged_schema_metadata
        (setKey schemaMeta e.1 e.2) t) k = getKey schemaMeta k
    rw [ih (setKey schemaMeta e.1 e.2) hk2]
    exact getKey_setKey_ne schemaMeta e.1 k e.2 hk1

/-- Witness for the amended C6: the theorem applied to a schema map
`{"x": "1"}`, blob value `null`, and a non-colliding merged map
`{"y": "2"}`. -/
theorem schema_merge_preserves_noncolliding_keys_witness :
    ("x" : String) ≠ "huggingface" ∧
    getKey (FixParquetHfMetadata.updated_schema_metadata [("x", "1")] .null) "x"
      = getKey [("x", "1")] "x" ∧
    getKey (FixParquetHfMetadata.updated_schema_metadata [("x", "1")] .null) "huggingface"
      = some (json_dumps .null) ∧
    ("x" : String) ∉ ([("y", "2")] : List (String × String)).map Prod.fst ∧
    getKey (ConvertParquetHfListToSequence.merged_schema_metadata [("x", "1")] [("y", "2")]) "x"
      = getKey [("x", "1")] "x" :=
  ⟨by decide,
    schema_merge_preserves_noncolliding_keys.1 [("x", "1")] .null "x" (by decide),
    schema_merge_preserves_noncolliding_keys.2.1 [("x", "1")] .null,
    by decide,
    schema_merge_preserves_noncolliding_keys.2.2 [("x", "1")] [("y", "2")] "x" (by decide)⟩

/-- Counterexample for C8: the serialization emits a space character
after the key colon — `{"a": 1}` — although no string of the input
contains a space, so the encoding does contain whitespace beyond the
string contents (Python's default separators are `", "` and `": "`). -/
theorem dumps_emits_separator_spaces :
    json_dumps (.obj [("a", JSON.num 1)]) = "\x7b\"a\": 1\x7d" ∧
    (json_dumps (.obj [("a", JSON.num 1)])).data.contains ' ' = true ∧
    ("a".data.contains ' ' = false) :=
  ⟨rfl, by decide, by decide⟩

/-- C8 as amended: the serialization used for the needs-write comparison
and for the blobs installed by both writers is the same single
deterministic function — UTF-8 text, no forced ASCII-escaping (every
character from space upward other than the quote and the backslash is
emitted verbatim, in particular non-ASCII characters), and whitespace
limited to the single space of Python's default `": "` and `", "`
separators, with no indentation or newlines. -/
theorem serialization_shared_and_not_ascii_forced :
    (∀ (meta : List (String × String)) (j : JSON),
      FixParquetHfMetadata.target_bytes j = json_dumps j ∧
      getKey (FixParquetHfMetadata.updated_schema_metadata meta j) "huggingface"
        = some (json_dumps j) ∧
      getKey (ConvertParquetHfListToSequence.new_meta meta j) "huggingface"
        = some (json_dumps j)) ∧
    (∀ c : Char, 0x20 ≤ c.val → c ≠ '"' → c ≠ '\\' →
      encodeChar c = String.singleton c) ∧
    (∀ (k1 k2 : String) (v1 v2 : JSON),
      json_dumps (.obj [(k1, v1), (k2, v2)])
        = "\x7b" ++ encodeString k1 ++ ": " ++ json_dumps v1 ++ ", "
            ++ encodeString k2 ++ ": " ++ json_dumps v2 ++ "\x7d") := by
  refine ⟨fun meta j => ⟨rfl, getKey_setKey_self meta "huggingface" _,
      getKey_setKey_self meta "huggingface" _⟩, ?_, ?_⟩
  · intro c h h2 h3
    have hn : c ≠ '\n' := by
      intro hh
      subst hh
      exact absurd h (by decide)
    have hr : c ≠ '\r' := by
      intro hh
      subst hh
      exact absurd h (by decide)
    have ht : c ≠ '\t' := by
      intro hh
      subst hh
      exact absurd h (by decide)
    have hb : c ≠ '\x08' := by
      intro hh
      subst hh
      exact absurd h (by decide)
    have hf : c ≠ '\x0c' := by
      intro hh
      subst hh
      exact absurd h (by decide)
    have hlt : ¬ c.val < 0x20 := by
      simpa using h
    simp [encodeChar, h2, h3, hn, hr, ht, hb, hf, hlt]
  · intro k1 k2 v1 v2
    simp [json_dumps, dumpsFields, String.append_assoc]

/-- Witness for the amended C8: the theorem applied to the value `null`
with an empty metadata map, the non-ASCII character `é` (emitted
verbatim), and a two-entry object. -/
theorem serialization_shared_and_not_ascii_forced_witness :
    (FixParquetHfMetadata.target_bytes .null = json_dumps .null ∧
      getKey (FixParquetHfMetadata.updated_schema_metadata [] .null) "huggingface"
        = some (json_dumps .null) ∧
      getKey (ConvertParquetHfListToSequence.new_meta [] .null) "huggingface"
        = some (json_dumps .null)) ∧
    (0x20 ≤ 'é'.val ∧ 'é' ≠ '"' ∧ 'é' ≠ '\\' ∧
      encodeChar 'é' = String.singleton 'é') ∧
    json_dumps (.obj [("a", JSON.null), ("b", JSON.num 2)])
      = "\x7b" ++ encodeString "a" ++ ": " ++ json_dumps .null ++ ", "
          ++ encodeString "b" ++ ": " ++ json_dumps (.num 2) ++ "\x7d" :=
  ⟨serialization_shared_and_not_ascii_forced.1 [] .null,
    ⟨by decide, by decide, by decide,
      serialization_shared_and_not_ascii_forced.2.1 'é' (by decide) (by decide) (by decide)⟩,
    serialization_shared_and_not_ascii_forced.2.2 "a" "b" .null (.num 2)⟩


theorem fsGet_fsSet_self (fs : FS) (p : FilePath') (c : FileContent) :
    fsGet (fsSet fs p c) p = some c :=
  getKey_setKey_self fs p c

theorem fsGet_fsSet_ne (fs : FS) (p q : FilePath') (c : FileContent) (h : q ≠ p) :
    fsGet (fsSet fs p c) q = fsGet fs q :=
  getKey_setKey_ne fs p q c h

theorem fsGet_fsErase_self (fs : FS) (p : FilePath') :
    fsGet (fsErase fs p) p = none := by
  induction fs with
  | nil => rfl
  | cons e t ih =>
    by_cases he : e.1 = p
    · simpa [fsErase, he] using ih
    · simpa [fsErase, he, fsGet, getKey] using ih

theorem fsGet_fsErase_ne (fs : FS) (p q : FilePath') (h : q ≠ p) :
    fsGet (fsErase fs p) q = fsGet fs q := by
  have h' : p ≠ q := Ne.symm h
  induction fs with
  | nil => rfl
  | cons e t ih =>
    by_cases he : e.1 = p
    · simpa [fsErase, he, fsGet, getKey, h, h'] using ih
    · by_cases heq : e.1 = q
      · simp [fsErase, he, fsGet, getKey, heq, h, h']
      · simpa [fsErase, he, fsGet, getKey, heq] using ih

/-- Counterexample for C2: the normalize script's in-place rewrite
(`pq.write_table(new_table, str(path))`, normalize_parquet_hf_schema_meta.py
line 64) writes directly over the original path with no temporary file
and no rename, so on a write failure the original file is left
truncated (partially written) instead of untouched. -/
theorem normalize_write_truncates_original_on_failure :
    NormalizeParquetHfSchemaMeta.normalize_file_write
        [(["root", "f.parquet"], FileContent.data 0)] ["root", "f.parquet"]
        (FileContent.data 1) false
      = ([(["root", "f.parquet"], FileContent.truncated)], false) ∧
    fsGet [(["root", "f.parquet"], FileContent.data 0)] ["root", "f.parquet"]
      = some (FileContent.data 0) ∧
    fsGet [(["root", "f.parquet"], FileContent.truncated)] ["root", "f.parquet"]
      = some FileContent.truncated :=
  ⟨rfl, rfl, rfl⟩

/-- C2 as amended: the in-place rewrites of the fix script
(`write_with_hf_metadata` with no destination or with the destination
equal to the source) and of the convert script
(`rewrite_parquet_with_metadata`) write the new table to a fresh
temporary file in the source's directory and atomically rename it over
the original: the call succeeds exactly when both the table write and
the rename do; on success the source holds the new content; on any
failure the error is re-raised, the source is byte-identical to before,
and the temporary file has been removed; no other path is touched. The
normalize script's in-place rewrite does not follow this discipline
(see the counterexample). -/
theorem inplace_rewrite_atomic_in_fix_and_convert :
    ∀ (fs : FS) (src : FilePath') (dest : Option FilePath') (c : FileContent)
      (tmpName : String) (fail : WriteFailure) (tmp : FilePath'),
      (dest = none ∨ dest = some src) →
      tmp = src.dropLast ++ [tmpName] →
      tmp ≠ src →
      ((FixParquetHfMetadata.write_with_hf_metadata fs src dest c tmpName fail).2
          = (fail.writeOk && fail.renameOk) ∧
        ((FixParquetHfMetadata.write_with_hf_metadata fs src dest c tmpName fail).2 = true →
          fsGet (FixParquetHfMetadata.write_with_hf_metadata fs src dest c tmpName fail).1 src
            = some c) ∧
        ((FixParquetHfMetadata.write_with_hf_metadata fs src dest c tmpName fail).2 = false →
          fsGet (FixParquetHfMetadata.write_with_hf_metadata fs src dest c tmpName fail).1 src
            = fsGet fs src) ∧
        fsGet (FixParquetHfMetadata.write_with_hf_metadata fs src dest c tmpName fail).1 tmp
          = none ∧
        (∀ p, p ≠ src → p ≠ tmp →
          fsGet (FixParquetHfMetadata.write_with_hf_metadata fs src dest c tmpName fail).1 p
            = fsGet fs p)) ∧
      ((ConvertParquetHfListToSequence.rewrite_parquet_with_metadata fs src c tmpName fail).2
          = (fail.writeOk && fail.renameOk) ∧
        ((ConvertParquetHfListToSequence.rewrite_parquet_with_metadata fs src c tmpName fail).2 = true →
          fsGet (ConvertParquetHfListToSequence.rewrite_parquet_with_metadata fs src c tmpName fail).1 src
            = some c) ∧
        ((ConvertParquetHfListToSequence.rewrite_parquet_with_metadata fs src c tmpName fail).2 = false →
          fsGet (ConvertParquetHfListToSequence.rewrite_parquet_with_metadata fs src c tmpName fail).1 src
            = fsGet fs src) ∧
        fsGet (ConvertParquetHfListToSequence.rewrite_parquet_with_metadata fs src c tmpName fail).1 tmp
          = none ∧
        (∀ p, p ≠ src → p ≠ tmp →
          fsGet (ConvertParquetHfListToSequence.rewrite_parquet_with_metadata fs src c tmpName fail).1 p
            = fsGet fs p)) := by
  intro fs src dest c tmpName fail tmp hdest htmpdef htmp
  subst htmpdef
  have h' : src ≠ src.dropLast ++ [tmpName] := Ne.symm htmp
  obtain ⟨w, r⟩ := fail
  constructor
  · rcases hdest with rfl | rfl <;> cases w <;> cases r <;>
      refine ⟨?_, ?_, ?_, ?_, ?_⟩ <;>
      (intros
       simp_all [FixParquetHfMetadata.write_with_hf_metadata,
         fsGet_fsSet_self, fsGet_fsSet_ne, fsGet_fsErase_self, fsGet_fsErase_ne])
  · cases w <;> cases r <;>
      refine ⟨?_, ?_, ?_, ?_, ?_⟩ <;>
      (intros
       simp_all [ConvertParquetHfListToSequence.rewrite_parquet_with_metadata,
         fsGet_fsSet_self, fsGet_fsSet_ne, fsGet_fsErase_self, fsGet_fsErase_ne])

/-- Witness for the amended C2: the theorem applied to an empty file
system, source `s`, temporary name `t`, in-place mode (no destination)
and no injected failure. -/
theorem inplace_rewrite_atomic_in_fix_and_convert_witness :
    ((none : Option FilePath') = none ∨ (none : Option FilePath') = some ["s"]) ∧
    (["t"] : FilePath') = (["s"] : FilePath').dropLast ++ ["t"] ∧
    (["t"] : FilePath') ≠ ["s"] ∧
    (((FixParquetHfMetadata.write_with_hf_metadata [] ["s"] none (.data 1) "t" ⟨true, true⟩).2
        = ((⟨true, true⟩ : WriteFailure).writeOk && (⟨true, true⟩ : WriteFailure).renameOk) ∧
      ((FixParquetHfMetadata.write_with_hf_metadata [] ["s"] none (.data 1) "t" ⟨true, true⟩).2 = true →
        fsGet (FixParquetHfMetadata.write_with_hf_metadata [] ["s"] none (.data 1) "t" ⟨true, true⟩).1 ["s"]
          = some (.data 1)) ∧
      ((FixParquetHfMetadata.write_with_hf_metadata [] ["s"] none (.data 1) "t" ⟨true, true⟩).2 = false →
        fsGet (FixParquetHfMetadata.write_with_hf_metadata [] ["s"] none (.data 1) "t" ⟨true, true⟩).1 ["s"]
          = fsGet [] ["s"]) ∧
      fsGet (FixParquetHfMetadata.write_with_hf_metadata [] ["s"] none (.data 1) "t" ⟨true, true⟩).1 ["t"]
        = none ∧
      (∀ p, p ≠ ["s"] → p ≠ ["t"] →
        fsGet (FixParquetHfMetadata.write_with_hf_metadata [] ["s"] none (.data 1) "t" ⟨true, true⟩).1 p
          = fsGet [] p)) ∧
    ((ConvertParquetHfListToSequence.rewrite_parquet_with_metadata [] ["s"] (.data 1) "t" ⟨true, true⟩).2
        = ((⟨true, true⟩ : WriteFailure).writeOk && (⟨true, true⟩ : WriteFailure).renameOk) ∧
      ((ConvertParquetHfListToSequence.rewrite_parquet_with_metadata [] ["s"] (.data 1) "t" ⟨true, true⟩).2 = true →
        fsGet (ConvertParquetHfListToSequence.rewrite_parquet_with_metadata [] ["s"] (.data 1) "t" ⟨true, true⟩).1 ["s"]
          = some (.data 1)) ∧
      ((ConvertParquetHfListToSequence.rewrite_parquet_with_metadata [] ["s"] (.data 1) "t" ⟨true, true⟩).2 = false →
        fsGet (ConvertParquetHfListToSequence.rewrite_parquet_with_metadata [] ["s"] (.data 1) "t" ⟨true, true⟩).1 ["s"]
          = fsGet [] ["s"]) ∧
      fsGet (ConvertParquetHfListToSequence.rewrite_parquet_with_metadata [] ["s"] (.data 1) "t" ⟨true, true⟩).1 ["t"]
        = none ∧
      (∀ p, p ≠ ["s"] → p ≠ ["t"] →
        fsGet (ConvertParquetHfListToSequence.rewrite_parquet_with_metadata [] ["s"] (.data 1) "t" ⟨true, true⟩).1 p
          = fsGet [] p))) :=
  ⟨Or.inl rfl, rfl, by decide,
    inplace_rewrite_atomic_in_fix_and_convert [] ["s"] none (.data 1) "t" ⟨true, true⟩ ["t"]
      (Or.inl rfl) rfl (by decide)⟩

theorem root_not_prefix_of_out_extension {root out_root : FilePath'} (s : FilePath')
    (hro : ¬ root <+: out_root) (hor : ¬ out_root <+: root) :
    ¬ root <+: out_root ++ s := by
  intro hc
  rcases List.prefix_or_prefix_of_prefix hc (List.prefix_append out_root s) with h | h
  · exact hro h
  · exact hor h

theorem fix_entry_ops_targets (root out_root : FilePath') (tmpName : String) (e : FSEntry)
    (hwf : e.wf) (hro : ¬ root <+: out_root) (hor : ¬ out_root <+: root) :
    ∀ op ∈ FixParquetHfMetadata.main_entry_ops root out_root tmpName e,
      ∀ p ∈ op.targets, out_root <+: p ∧ ¬ root <+: p := by
  have hout : ∀ s : FilePath', out_root <+: out_root ++ s ∧ ¬ root <+: out_root ++ s :=
    fun s => ⟨List.prefix_append _ _, root_not_prefix_of_out_extension s hro hor⟩
  cases e with
  | dir rel =>
    intro op hop p hp
    simp only [FixParquetHfMetadata.main_entry_ops, List.mem_singleton] at hop
    subst hop
    simp only [FileOp.targets, List.mem_singleton] at hp
    subst hp
    exact hout rel
  | file rel isPq fm sm =>
    have hrel : rel ≠ [] := hwf
    have hdl : (out_root ++ rel).dropLast = out_root ++ rel.dropLast :=
      List.dropLast_append_of_ne_nil out_root hrel
    have hne : ¬ (out_root ++ rel = root ++ rel) := by
      intro hh
      have hrr : out_root = root := List.append_cancel_right hh
      exact hro (hrr ▸ List.prefix_refl out_root)
    have hcopyish : ∀ op, (op = FileOp.mkdirOp (out_root ++ rel).dropLast ∨
        op = FileOp.copyOp (root ++ rel) (out_root ++ rel)) →
        ∀ p ∈ op.targets, out_root <+: p ∧ ¬ root <+: p := by
      rintro op (rfl | rfl) p hp <;>
        simp only [FileOp.targets, List.mem_singleton] at hp <;> subst hp
      · rw [hdl]
        exact hout _
      · exact hout _
    intro op hop p hp
    cases isPq with
    | false =>
      simp only [FixParquetHfMetadata.main_entry_ops, Bool.not_false, if_true] at hop
      rcases List.mem_cons.mp hop with rfl | hop'
      · exact hcopyish _ (Or.inl rfl) p hp
      · rcases List.mem_singleton.mp hop' with rfl
        exact hcopyish _ (Or.inr rfl) p hp
    | true =>
      cases hu : FixParquetHfMetadata.hf_meta_usable
          (FixParquetHfMetadata.read_hf_metadata fm sm) with
      | false =>
        simp only [FixParquetHfMetadata.main_entry_ops, hu, Bool.not_true, Bool.not_false,
          Bool.false_eq_true, if_false, if_true] at hop
        rcases List.mem_cons.mp hop with rfl | hop'
        · exact hcopyish _ (Or.inl rfl) p hp
        · rcases List.mem_singleton.mp hop' with rfl
          exact hcopyish _ (Or.inr rfl) p hp
      | true =>
        cases hj : (FixParquetHfMetadata.read_hf_metadata fm sm).json with
        | none =>
          simp [FixParquetHfMetadata.main_entry_ops, hu, hj] at hop
        | some chosen =>
          cases hc : FixParquetHfMetadata.convert_list_to_sequence chosen with
          | none =>
            simp [FixParquetHfMetadata.main_entry_ops, hu, hj, hc] at hop
          | some res =>
            have hops : FixParquetHfMetadata.main_entry_ops root out_root tmpName
                (.file rel true fm sm)
                = [FileOp.mkdirOp (out_root ++ rel).dropLast, FileOp.writeOp (out_root ++ rel)] := by
              simp [FixParquetHfMetadata.main_entry_ops, hu, hj, hc,
                FixParquetHfMetadata.write_with_hf_metadata_ops, hne]
            rw [hops] at hop
            rcases List.mem_cons.mp hop with rfl | hop'
            · simp only [FileOp.targets, List.mem_singleton] at hp
              subst hp
              rw [hdl]
              exact hout _
            · rcases List.mem_singleton.mp hop' with rfl
              simp only [FileOp.targets, List.mem_singleton] at hp
              subst hp
              exact hout _

theorem conv_entry_ops_targets (root out_root : FilePath') (e : FSEntry)
    (hwf : e.wf) (hro : ¬ root <+: out_root) (hor : ¬ out_root <+: root) :
    ∀ op ∈ ConvertParquetHfListToSequence.main_entry_ops root out_root e,
      ∀ p ∈ op.targets, out_root <+: p ∧ ¬ root <+: p := by
  have hout : ∀ s : FilePath', out_root <+: out_root ++ s ∧ ¬ root <+: out_root ++ s :=
    fun s => ⟨List.prefix_append _ _, root_not_prefix_of_out_extension s hro hor⟩
  cases e with
  | dir rel =>
    intro op hop p hp
    simp only [ConvertParquetHfListToSequence.main_entry_ops, List.mem_singleton] at hop
    subst hop
    simp only [FileOp.targets, List.mem_singleton] at hp
    subst hp
    exact hout rel
  | file rel isPq fm sm =>
    have hrel : rel ≠ [] := hwf
    have hdl : (out_root ++ rel).dropLast = out_root ++ rel.dropLast :=
      List.dropLast_append_of_ne_nil out_root hrel
    have hpair : ∀ op, (op = FileOp.mkdirOp (out_root ++ rel).dropLast ∨
        op = FileOp.copyOp (root ++ rel) (out_root ++ rel) ∨
        op = FileOp.writeOp (out_root ++ rel)) →
        ∀ p ∈ op.targets, out_root <+: p ∧ ¬ root <+: p := by
      rintro op (rfl | rfl | rfl) p hp <;>
        simp only [FileOp.targets, List.mem_singleton] at hp <;> subst hp
      · rw [hdl]
        exact hout _
      · exact hout _
      · exact hout _
    intro op hop p hp
    cases isPq with
    | false =>
      simp only [ConvertParquetHfListToSequence.main_entry_ops, Bool.false_eq_true,
        if_false] at hop
      rcases List.mem_cons.mp hop with rfl | hop'
      · exact hpair _ (Or.inl rfl) p hp
      · rcases List.mem_singleton.mp hop' with rfl
        exact hpair _ (Or.inr (Or.inl rfl)) p hp
    | true =>
      cases hl : (ConvertParquetHfListToSequence.load_hf_metadata fm).1 with
      | none =>
        have hops : ConvertParquetHfListToSequence.main_entry_ops root out_root
            (.file rel true fm sm)
            = [FileOp.mkdirOp (out_root ++ rel).dropLast,
               FileOp.copyOp (root ++ rel) (out_root ++ rel)] := by
          simp [ConvertParquetHfListToSequence.main_entry_ops, hl]
        rw [hops] at hop
        rcases List.mem_cons.mp hop with rfl | hop'
        · exact hpair _ (Or.inl rfl) p hp
        · rcases List.mem_singleton.mp hop' with rfl
          exact hpair _ (Or.inr (Or.inl rfl)) p hp
      | some hf =>
        cases hc : ConvertParquetHfListToSequence.convert_list_to_sequence hf with
        | none =>
          simp [ConvertParquetHfListToSequence.main_entry_ops, hl, hc] at hop
        | some res =>
          obtain ⟨updated, n⟩ := res
          by_cases hn : n = 0
          · have hops : ConvertParquetHfListToSequence.main_entry_ops root out_root
                (.file rel true fm sm)
                = [FileOp.mkdirOp (out_root ++ rel).dropLast,
                   FileOp.copyOp (root ++ rel) (out_root ++ rel)] := by
              simp [ConvertParquetHfListToSequence.main_entry_ops, hl, hc, hn]
            rw [hops] at hop
            rcases List.mem_cons.mp hop with rfl | hop'
            · exact hpair _ (Or.inl rfl) p hp
            · rcases List.mem_singleton.mp hop' with rfl
              exact hpair _ (Or.inr (Or.inl rfl)) p hp
          · have hops : ConvertParquetHfListToSequence.main_entry_ops root out_root
                (.file rel true fm sm)
                = [FileOp.mkdirOp (out_root ++ rel).dropLast,
                   FileOp.writeOp (out_root ++ rel)] := by
              simp [ConvertParquetHfListToSequence.main_entry_ops, hl, hc, hn]
            rw [hops] at hop
            rcases List.mem_cons.mp hop with rfl | hop'
            · exact hpair _ (Or.inl rfl) p hp
            · rcases List.mem_singleton.mp hop' with rfl
              exact hpair _ (Or.inr (Or.inr rfl)) p hp

/-- C9: in mirror mode (a distinct output root, here expressed as
neither root being a prefix of the other) with apply enabled, every
file-system operation of either script's run — directory creation,
copy-through, and table write — targets only paths under the
destination root, and no target lies under the source root, so no file
under the source tree is ever created, modified or deleted. -/
theorem mirror_mode_touches_only_destination_tree :
    ∀ (root out_root : FilePath') (tmpName : String) (entries : List FSEntry),
      (∀ e ∈ entries, e.wf) →
      ¬ root <+: out_root → ¬ out_root <+: root →
      (∀ op ∈ FixParquetHfMetadata.main_mirror_ops root out_root tmpName entries,
        ∀ p ∈ op.targets, out_root <+: p ∧ ¬ root <+: p) ∧
      (∀ op ∈ ConvertParquetHfListToSequence.main_mirror_ops root out_root entries,
        ∀ p ∈ op.targets, out_root <+: p ∧ ¬ root <+: p) := by
  intro root out_root tmpName entries hwf hro hor
  constructor
  · intro op hop
    rw [FixParquetHfMetadata.main_mirror_ops, List.mem_flatMap] at hop
    obtain ⟨e, he, hope⟩ := hop
    exact fix_entry_ops_targets root out_root tmpName e (hwf e he) hro hor op hope
  · intro op hop
    rw [ConvertParquetHfListToSequence.main_mirror_ops, List.mem_flatMap] at hop
    obtain ⟨e, he, hope⟩ := hop
    exact conv_entry_ops_targets root out_root e (hwf e he) hro hor op hope

/-- Witness for C9: the theorem applied to roots `src` and `dst` and a
three-entry walk (the root directory, a parquet file with a
`"List"`-tagged feature map, and a non-parquet file). -/
theorem mirror_mode_touches_only_destination_tree_witness :
    (∀ e ∈ [FSEntry.dir [],
        FSEntry.file ["data.parquet"] true
          [("huggingface", "\x7b\"info\": \x7b\"features\": \x7b\"a\": \x7b\"_type\": \"List\"\x7d\x7d\x7d\x7d")]
          [],
        FSEntry.file ["notes.txt"] false [] []], e.wf) ∧
    ¬ (["src"] : FilePath') <+: ["dst"] ∧
    ¬ (["dst"] : FilePath') <+: ["src"] ∧
    ((∀ op ∈ FixParquetHfMetadata.main_mirror_ops ["src"] ["dst"] "tmp.parquet"
        [FSEntry.dir [],
          FSEntry.file ["data.parquet"] true
            [("huggingface", "\x7b\"info\": \x7b\"features\": \x7b\"a\": \x7b\"_type\": \"List\"\x7d\x7d\x7d\x7d")]
            [],
          FSEntry.file ["notes.txt"] false [] []],
        ∀ p ∈ op.targets, (["dst"] : FilePath') <+: p ∧ ¬ (["src"] : FilePath') <+: p) ∧
      (∀ op ∈ ConvertParquetHfListToSequence.main_mirror_ops ["src"] ["dst"]
        [FSEntry.dir [],
          FSEntry.file ["data.parquet"] true
            [("huggingface", "\x7b\"info\": \x7b\"features\": \x7b\"a\": \x7b\"_type\": \"List\"\x7d\x7d\x7d\x7d")]
            [],
          FSEntry.file ["notes.txt"] false [] []],
        ∀ p ∈ op.targets, (["dst"] : FilePath') <+: p ∧ ¬ (["src"] : FilePath') <+: p)) := by
  refine ⟨?_, by decide, by decide, ?_⟩
  · simp [FSEntry.wf]
  · exact mirror_mode_touches_only_destination_tree ["src"] ["dst"] "tmp.parquet" _
      (by simp [FSEntry.wf]) (by decide) (by decide)

theorem empty_bne_empty : (("" : String) != "") = false := by decide

/-- C10: an empty metadata blob is treated exactly like an absent one at
every decision point — the fix script's reader never selects an empty
file-level or schema-level blob as the source and reports no usable
metadata when both slots are empty or absent; the convert script's
loader yields no metadata for an empty blob; and the normalize script's
decision is unchanged when an empty blob is replaced by an absent one,
reporting `no hf metadata` when both blobs are empty. -/
theorem empty_blob_treated_as_absent :
    (∀ fm sm : List (String × String), getKey fm "huggingface" = some "" →
      (FixParquetHfMetadata.read_hf_metadata fm sm).source ≠ "file") ∧
    (∀ fm sm : List (String × String), getKey sm "huggingface" = some "" →
      (FixParquetHfMetadata.read_hf_metadata fm sm).source ≠ "schema") ∧
    (∀ fm sm : List (String × String),
      (getKey fm "huggingface" = some "" ∨ getKey fm "huggingface" = none) →
      (getKey sm "huggingface" = some "" ∨ getKey sm "huggingface" = none) →
      FixParquetHfMetadata.read_hf_metadata fm sm = ⟨"none", none, none, none⟩ ∧
      FixParquetHfMetadata.hf_meta_usable (FixParquetHfMetadata.read_hf_metadata fm sm)
        = false) ∧
    (∀ fm : List (String × String), getKey fm "huggingface" = some "" →
      (ConvertParquetHfListToSequence.load_hf_metadata fm).1 = none) ∧
    (∀ (rs : Option String) (d : Bool),
      NormalizeParquetHfSchemaMeta.normalize_file_decide (some "") rs d
        = NormalizeParquetHfSchemaMeta.normalize_file_decide none rs d) ∧
    (∀ (fsb : Option String) (d : Bool),
      NormalizeParquetHfSchemaMeta.normalize_file_decide fsb (some "") d
        = NormalizeParquetHfSchemaMeta.normalize_file_decide fsb none d) ∧
    (∀ d : Bool,
      NormalizeParquetHfSchemaMeta.normalize_file_decide (some "") (some "") d
        = (false, "no hf metadata")) := by
  refine ⟨?_, ?_, ?_, ?_, ?_, ?_, ?_⟩
  · intro fm sm h
    cases hs : getKey sm "huggingface" with
    | none =>
      simp [FixParquetHfMetadata.read_hf_metadata, h, hs, empty_bne_empty]
    | some b2 =>
      by_cases hb : b2 = ""
      · subst hb
        simp [FixParquetHfMetadata.read_hf_metadata, h, hs, empty_bne_empty]
      · have hb' : (b2 != "") = true := by simpa using hb
        simp [FixParquetHfMetadata.read_hf_metadata, h, hs, empty_bne_empty, hb']
  · intro fm sm h
    cases hf : getKey fm "huggingface" with
    | none =>
      simp [FixParquetHfMetadata.read_hf_metadata, h, hf, empty_bne_empty]
    | some b =>
      by_cases hb : b = ""
      · subst hb
        simp [FixParquetHfMetadata.read_hf_metadata, h, hf, empty_bne_empty]
      · have hb' : (b != "") = true := by simpa using hb
        simp [FixParquetHfMetadata.read_hf_metadata, h, hf, empty_bne_empty, hb']
  · intro fm sm h1 h2
    rcases h1 with h1 | h1 <;> rcases h2 with h2 | h2 <;>
      constructor <;>
      simp [FixParquetHfMetadata.read_hf_metadata, h1, h2, empty_bne_empty,
        FixParquetHfMetadata.hf_meta_usable]
  · intro fm h
    simp [ConvertParquetHfListToSequence.load_hf_metadata, h, optBytesTruthy,
      empty_bne_empty]
  · intro rs d
    cases rs with
    | none => rfl
    | some s =>
      by_cases hb : s = ""
      · subst hb
        rfl
      · have hb' : (s != "") = true := by simpa using hb
        simp [NormalizeParquetHfSchemaMeta.normalize_file_decide, optBytesTruthy,
          empty_bne_empty, hb']
  · intro fsb d
    cases fsb with
    | none => rfl
    | some s =>
      by_cases hb : s = ""
      · subst hb
        rfl
      · have hb' : (s != "") = true := by simpa using hb
        have hbe : (("" : String) == s) = false := by
          simp [Ne.symm hb]
        cases hj : json_loads s with
        | none =>
          simp [NormalizeParquetHfSchemaMeta.normalize_file_decide, optBytesTruthy,
            empty_bne_empty, hb', hj]
        | some j =>
          simp [NormalizeParquetHfSchemaMeta.normalize_file_decide, optBytesTruthy,
            empty_bne_empty, hb', hj, hbe]
  · intro d
    rfl

/-- Witness for C10: the theorem applied to metadata maps holding the
empty blob and to the schema blob `"x"`. -/
theorem empty_blob_treated_as_absent_witness :
    getKey [("huggingface", "")] "huggingface" = some "" ∧
    (FixParquetHfMetadata.read_hf_metadata [("huggingface", "")] []).source ≠ "file" ∧
    (FixParquetHfMetadata.read_hf_metadata [] [("huggingface", "")]).source ≠ "schema" ∧
    (FixParquetHfMetadata.read_hf_metadata [("huggingface", "")] [("huggingface", "")]
        = ⟨"none", none, none, none⟩ ∧
      FixParquetHfMetadata.hf_meta_usable
        (FixParquetHfMetadata.read_hf_metadata [("huggingface", "")] [("huggingface", "")])
        = false) ∧
    (ConvertParquetHfListToSequence.load_hf_metadata [("huggingface", "")]).1 = none ∧
    NormalizeParquetHfSchemaMeta.normalize_file_decide (some "") (some "x") true
      = NormalizeParquetHfSchemaMeta.normalize_file_decide none (some "x") true ∧
    NormalizeParquetHfSchemaMeta.normalize_file_decide (some "x") (some "") false
      = NormalizeParquetHfSchemaMeta.normalize_file_decide (some "x") none false ∧
    NormalizeParquetHfSchemaMeta.normalize_file_decide (some "") (some "") true
      = (false, "no hf metadata") :=
  ⟨rfl,
    empty_blob_treated_as_absent.1 [("huggingface", "")] [] rfl,
    empty_blob_treated_as_absent.2.1 [] [("huggingface", "")] rfl,
    empty_blob_treated_as_absent.2.2.1 [("huggingface", "")] [("huggingface", "")]
      (Or.inl rfl) (Or.inl rfl),
    empty_blob_treated_as_absent.2.2.2.1 [("huggingface", "")] rfl,
    empty_blob_treated_as_absent.2.2.2.2.1 (some "x") true,
    empty_blob_treated_as_absent.2.2.2.2.2.1 (some "x") false,
    empty_blob_treated_as_absent.2.2.2.2.2.2 true⟩
